import Mathlib

/-!
Shallow embedding of the transport layer of the raven profiling harness
(src/scripts/profile_startup.py and src/scripts/profile_simple.py): the
length-prefixed message codec (send_message / read_message), the
diagnostics wait loop of profile_startup.main, and the shutdown sequences
of both scripts.  Streams of bytes are modelled as lists of unicode scalar
values paired with arrival instants: both sides of the harness use UTF-8
consistently and json.dumps with its default ensure_ascii setting emits
pure ASCII, so one list element corresponds to one wire byte for every
payload the harness produces.
-/

namespace Raven

/-- Carriage return, the first character of the header line terminator. -/
def crChar : Char := Char.ofNat 13

/-- Line feed, the second character of the header line terminator. -/
def lfChar : Char := Char.ofNat 10

/-- Opening curly bracket character (code point 123). -/
def lbrace : Char := Char.ofNat 123

/-- Closing curly bracket character (code point 125). -/
def rbrace : Char := Char.ofNat 125

/-- Python str.lower on the ASCII range, which is all the header matching in
read_message needs (header keys are ASCII). -/
def charLower (c : Char) : Char :=
  if 65 ≤ c.toNat ∧ c.toNat ≤ 90 then Char.ofNat (c.toNat + 32) else c

/-- Lowercase an entire string, modelling line.lower() in read_message. -/
def lowerStr (s : List Char) : List Char := s.map charLower

/-- The whitespace characters removed by Python str.strip (ASCII subset:
space, tab, line feed, vertical tab, form feed, carriage return). -/
def isPyWs (c : Char) : Bool :=
  c.toNat = 32 || c.toNat = 9 || c.toNat = 10 || c.toNat = 11 ||
  c.toNat = 12 || c.toNat = 13

/-- Python str.strip with no argument: remove leading and trailing
whitespace. -/
def pyStrip (s : List Char) : List Char :=
  ((s.dropWhile isPyWs).reverse.dropWhile isPyWs).reverse

/-- Python s.split on the two-character line terminator CR LF, scanning left
to right over non-overlapping occurrences, as used on the decoded header
block in read_message. -/
def splitCRLFCore : Nat → List Char → List (List Char)
  | 0, s => [s]
  | _, [] => [[]]
  | fuel + 1, c :: rest =>
    match rest with
    | [] => [[c]]
    | c2 :: rest2 =>
      if c = '\r' ∧ c2 = '\n' then [] :: splitCRLFCore fuel rest2
      else
        match splitCRLFCore fuel (c2 :: rest2) with
        | [] => [[c]]
        | g :: gs => (c :: g) :: gs

/-- Split a string on the CR LF terminator, with always-sufficient fuel. -/
def splitCRLF (s : List Char) : List (List Char) := splitCRLFCore s.length s

/-- Python line.split on a colon, as used to extract the value of a
Content-Length header line. -/
def splitColon : List Char → List (List Char)
  | [] => [[]]
  | c :: rest =>
    if c = ':' then [] :: splitColon rest
    else
      match splitColon rest with
      | [] => [[c]]
      | g :: gs => (c :: g) :: gs

/-- Value of a most-significant-first list of decimal digit characters. -/
def digitsVal (s : List Char) : Nat :=
  s.foldl (fun a c => 10 * a + (c.toNat - 48)) 0

/-- Python int() applied to an already-stripped string: an optional sign
followed by one or more ASCII decimal digits; any other shape raises
ValueError, modelled as none. -/
def pyInt (s : List Char) : Option Int :=
  match s with
  | [] => none
  | c :: rest =>
    if c = '-' then
      if rest ≠ [] ∧ rest.all Char.isDigit then some (-(digitsVal rest : Int))
      else none
    else if c = '+' then
      if rest ≠ [] ∧ rest.all Char.isDigit then some (digitsVal rest : Int)
      else none
    else
      if (c :: rest).all Char.isDigit then some (digitsVal (c :: rest) : Int)
      else none

/-- Fuelled core of decimal rendering: peel the least significant digit and
push it on the accumulator until one digit remains.  The fuel always
exceeds the argument, so it never runs out. -/
def natStrCore : Nat → Nat → List Char → List Char
  | 0, _, acc => acc
  | fuel + 1, n, acc =>
    if n < 10 then Nat.digitChar n :: acc
    else natStrCore fuel (n / 10) (Nat.digitChar (n % 10) :: acc)

/-- Decimal representation of a natural number, most significant digit
first, modelling how a Python f-string renders a nonnegative int. -/
def natStr (n : Nat) : List Char := natStrCore (n + 1) n []

/-- Decimal representation of an integer, modelling Python str on int. -/
def intStr (i : Int) : List Char :=
  if i < 0 then '-' :: natStr i.natAbs else natStr i.toNat

/-- JSON values as produced and consumed by the harness through json.dumps
and json.loads.  Numbers are modelled as integers: every message the
harness sends carries only integral numbers, and floating-point payloads
are outside the scope of this development.  Strings are lists of unicode
scalar values, exactly the Python strings that encode to UTF-8 (a Python
str holding lone surrogates makes send_message raise before any bytes are
written, so such payloads never reach the wire).  Objects are association
lists in insertion order, mirroring Python dicts. -/
inductive Json where
  | null : Json
  | bool (b : Bool) : Json
  | int (n : Int) : Json
  | str (s : List Char) : Json
  | arr (elems : List Json) : Json
  | obj (members : List (List Char × Json)) : Json

/-- Hexadecimal digit characters, lowercase, as emitted by the backslash-u
escapes of json.dumps. -/
def hexDigitChar (n : Nat) : Char :=
  match n with
  | 0 => '0' | 1 => '1' | 2 => '2' | 3 => '3' | 4 => '4'
  | 5 => '5' | 6 => '6' | 7 => '7' | 8 => '8' | 9 => '9'
  | 10 => 'a' | 11 => 'b' | 12 => 'c' | 13 => 'd' | 14 => 'e' | 15 => 'f'
  | _ => '*'

/-- Four-digit lowercase hexadecimal rendering of a number below 65536. -/
def hex4 (n : Nat) : List Char :=
  [hexDigitChar (n / 4096 % 16), hexDigitChar (n / 256 % 16),
   hexDigitChar (n / 16 % 16), hexDigitChar (n % 16)]

/-- Escape one character the way json.dumps does with its default
ensure_ascii setting: the quote and backslash and the five named control
characters get two-character shortcuts, all other characters outside
printable ASCII are written as backslash-u hex quads (as a surrogate pair
above the basic multilingual plane), and printable ASCII is emitted
literally. -/
def escChar (c : Char) : List Char :=
  if c = '"' then ['\\', '"']
  else if c = '\\' then ['\\', '\\']
  else if c.toNat = 8 then ['\\', 'b']
  else if c.toNat = 9 then ['\\', 't']
  else if c.toNat = 10 then ['\\', 'n']
  else if c.toNat = 12 then ['\\', 'f']
  else if c.toNat = 13 then ['\\', 'r']
  else if 32 ≤ c.toNat ∧ c.toNat ≤ 126 then [c]
  else if c.toNat < 65536 then '\\' :: 'u' :: hex4 c.toNat
  else
    ('\\' :: 'u' :: hex4 (55296 + (c.toNat - 65536) / 1024)) ++
      ('\\' :: 'u' :: hex4 (56320 + (c.toNat - 65536) % 1024))

/-- Escape the body of a JSON string literal character by character. -/
def escStr (s : List Char) : List Char := (s.map escChar).flatten

mutual

/-- Python json.dumps with default options (ensure_ascii escaping, item
separator comma-space, key separator colon-space), producing the message
body that send_message measures and writes. -/
def dumps : Json → List Char
  | .null => 'n' :: ['u', 'l', 'l']
  | .bool true => 't' :: ['r', 'u', 'e']
  | .bool false => 'f' :: ['a', 'l', 's', 'e']
  | .int i => intStr i
  | .str s => '"' :: (escStr s ++ ['"'])
  | .arr [] => ['[', ']']
  | .arr (x :: xs) => '[' :: ((dumps x ++ dumpsArrRest xs) ++ [']'])
  | .obj [] => [lbrace, rbrace]
  | .obj (kv :: kvs) =>
    lbrace :: ((dumpsMember kv ++ dumpsObjRest kvs) ++ [rbrace])

/-- Remaining array elements, each preceded by the comma-space item
separator. -/
def dumpsArrRest : List Json → List Char
  | [] => []
  | x :: xs => ',' :: ' ' :: (dumps x ++ dumpsArrRest xs)

/-- One object member: quoted escaped key, colon-space, value. -/
def dumpsMember : List Char × Json → List Char
  | (k, v) => ('"' :: (escStr k ++ ['"'])) ++ (':' :: ' ' :: dumps v)

/-- Remaining object members, each preceded by the comma-space item
separator. -/
def dumpsObjRest : List (List Char × Json) → List Char
  | [] => []
  | kv :: kvs => ',' :: ' ' :: (dumpsMember kv ++ dumpsObjRest kvs)

end

/-- The whitespace characters the Python JSON scanner skips between
tokens. -/
def isJsonWs (c : Char) : Bool :=
  c.toNat = 32 || c.toNat = 9 || c.toNat = 10 || c.toNat = 13

/-- Skip insignificant whitespace. -/
def skipWs (s : List Char) : List Char := s.dropWhile isJsonWs

/-- Value of one hexadecimal digit character, either case, as accepted by a
backslash-u escape. -/
def hexVal (c : Char) : Option Nat :=
  if 48 ≤ c.toNat ∧ c.toNat ≤ 57 then some (c.toNat - 48)
  else if 97 ≤ c.toNat ∧ c.toNat ≤ 102 then some (c.toNat - 87)
  else if 65 ≤ c.toNat ∧ c.toNat ≤ 70 then some (c.toNat - 55)
  else none

/-- Value of a four-hex-digit escape body. -/
def hex4Val (a b c d : Char) : Option Nat :=
  match hexVal a, hexVal b, hexVal c, hexVal d with
  | some x, some y, some z, some w => some (4096 * x + 256 * y + 16 * z + w)
  | _, _, _, _ => none

/-- Turn a code point into a character when it is a unicode scalar value.
The Python decoder would keep a lone surrogate escape as a lone-surrogate
str; such strings cannot be encoded back to UTF-8 and never occur in
harness traffic, so the model rejects them here. -/
def mkChar (n : Nat) : Option Char :=
  if h : n.isValidChar then some (Char.ofNatAux n h) else none

/-- Decode one backslash-u escape after its backslash-u prefix: either a
basic-plane code point, or a high surrogate that must be followed by a
second escape holding the low surrogate, combined into an astral code
point.  The continuation k parses the remainder of the string body. -/
def parseU (k : List Char → Option (List Char × List Char)) :
    List Char → Option (List Char × List Char)
  | a :: b :: c2 :: d :: r2 =>
    match hex4Val a b c2 d with
    | none => none
    | some n =>
      if 55296 ≤ n ∧ n ≤ 56319 then
        match r2 with
        | e2 :: u2 :: a2 :: b2 :: c3 :: d2 :: r3 =>
          if e2 = '\\' ∧ u2 = 'u' then
            match hex4Val a2 b2 c3 d2 with
            | none => none
            | some m =>
              if 56320 ≤ m ∧ m ≤ 57343 then
                match mkChar (65536 + 1024 * (n - 55296) + (m - 56320)) with
                | none => none
                | some ch => (k r3).map (fun p => (ch :: p.1, p.2))
              else none
          else none
        | _ => none
      else
        match mkChar n with
        | none => none
        | some ch => (k r2).map (fun p => (ch :: p.1, p.2))
  | _ => none

/-- Decode one backslash escape: the short forms, or a backslash-u hex
escape.  The continuation k parses the remainder of the string body. -/
def parseEsc (k : List Char → Option (List Char × List Char)) :
    List Char → Option (List Char × List Char)
  | [] => none
  | e :: r =>
    if e = '"' then (k r).map (fun p => ('"' :: p.1, p.2))
    else if e = '\\' then (k r).map (fun p => ('\\' :: p.1, p.2))
    else if e = '/' then (k r).map (fun p => ('/' :: p.1, p.2))
    else if e = 'b' then (k r).map (fun p => (Char.ofNat 8 :: p.1, p.2))
    else if e = 'f' then (k r).map (fun p => (Char.ofNat 12 :: p.1, p.2))
    else if e = 'n' then (k r).map (fun p => (Char.ofNat 10 :: p.1, p.2))
    else if e = 'r' then (k r).map (fun p => (Char.ofNat 13 :: p.1, p.2))
    else if e = 't' then (k r).map (fun p => (Char.ofNat 9 :: p.1, p.2))
    else if e = 'u' then parseU k r
    else none

/-- Parse the body of a JSON string literal after its opening quote:
literal characters up to the closing quote, backslash escapes, and
backslash-u hex quads with surrogate pairs combined, exactly the forms the
Python scanner accepts in strict mode (which also rejects raw control
characters below 0x20).  The fuel exceeds the input length at every call
site, so it never runs out. -/
def parseStrBody : Nat → List Char → Option (List Char × List Char)
  | 0, _ => none
  | _ + 1, [] => none
  | fuel + 1, c :: rest =>
    if c = '"' then some ([], rest)
    else if c = '\\' then parseEsc (parseStrBody fuel) rest
    else if c.toNat < 32 then none
    else (parseStrBody fuel rest).map (fun p => (c :: p.1, p.2))

/-- Parse the digit part of a JSON number: a single zero, or a nonzero
digit followed by further digits, mirroring the integral part of the
Python number regular expression (which also stops a leading-zero numeral
after the zero, making the stray digits a syntax error upstream). -/
def parseDigits : List Char → Option (Nat × List Char)
  | [] => none
  | c :: rest =>
    if c = '0' then some (0, rest)
    else if c.isDigit then
      some (digitsVal (c :: rest.takeWhile Char.isDigit),
            rest.dropWhile Char.isDigit)
    else none

/-- Finish a number: a following dot or exponent would make a float, which
no harness message contains and which this integer-valued model does not
accept. -/
def parseNumTail (v : Int) (rest : List Char) : Option (Json × List Char) :=
  match rest with
  | c :: _ => if c = '.' ∨ c = 'e' ∨ c = 'E' then none else some (.int v, rest)
  | [] => some (.int v, [])

/-- Python dict insertion: overwrite the value at an existing key, keeping
its position, else append the new pair at the end. -/
def objIns (acc : List (List Char × Json)) (k : List Char) (v : Json) :
    List (List Char × Json) :=
  if acc.any (fun kv => kv.1 = k) then
    acc.map (fun kv => if kv.1 = k then (k, v) else kv)
  else acc ++ [(k, v)]

mutual

/-- Recursive-descent JSON value parser mirroring the Python scanner on the
constructs the harness exchanges (null, booleans, integers, strings,
arrays, objects).  The fuel argument only guarantees termination; loads
passes more fuel than any parse of its input can consume. -/
def parseVal : Nat → List Char → Option (Json × List Char)
  | 0, _ => none
  | fuel + 1, s =>
    match skipWs s with
    | [] => none
    | c :: rest =>
      if c = 'n' then
        if ['u', 'l', 'l'].isPrefixOf rest then some (.null, rest.drop 3)
        else none
      else if c = 't' then
        if ['r', 'u', 'e'].isPrefixOf rest then some (.bool true, rest.drop 3)
        else none
      else if c = 'f' then
        if ['a', 'l', 's', 'e'].isPrefixOf rest then
          some (.bool false, rest.drop 4)
        else none
      else if c = '"' then
        (parseStrBody (rest.length + 1) rest).map (fun p => (.str p.1, p.2))
      else if c = '-' then
        match parseDigits rest with
        | some (n, r) => parseNumTail (-(n : Int)) r
        | none => none
      else if c.isDigit then
        match parseDigits (c :: rest) with
        | some (n, r) => parseNumTail (n : Int) r
        | none => none
      else if c = '[' then
        match skipWs rest with
        | [] => none
        | c2 :: r2 =>
          if c2 = ']' then some (.arr [], r2)
          else
            match parseVal fuel (c2 :: r2) with
            | some (v, r3) => parseArrRest fuel [v] r3
            | none => none
      else if c = lbrace then
        match skipWs rest with
        | [] => none
        | c2 :: r2 =>
          if c2 = rbrace then some (.obj [], r2)
          else if c2 = '"' then
            match parseStrBody (r2.length + 1) r2 with
            | some (k, r3) => parseMember fuel [] k r3
            | none => none
          else none
      else none

/-- After a parsed array element: a comma introduces the next element, a
closing bracket ends the array. -/
def parseArrRest : Nat → List Json → List Char → Option (Json × List Char)
  | 0, _, _ => none
  | fuel + 1, acc, s =>
    match skipWs s with
    | [] => none
    | c :: r =>
      if c = ',' then
        match parseVal fuel r with
        | some (v, r2) => parseArrRest fuel (acc ++ [v]) r2
        | none => none
      else if c = ']' then some (.arr acc, r)
      else none

/-- After a parsed member key: expect the colon, parse the value, insert
the pair with dict semantics, and continue with the remaining members. -/
def parseMember (fuel : Nat) (acc : List (List Char × Json))
    (k : List Char) (s : List Char) : Option (Json × List Char) :=
  match fuel with
  | 0 => none
  | fuel + 1 =>
    match skipWs s with
    | [] => none
    | c :: r =>
      if c = ':' then
        match parseVal fuel r with
        | some (v, r2) => parseObjRest fuel (objIns acc k v) r2
        | none => none
      else none

/-- After a parsed object member: a comma introduces the next quoted key, a
closing curly bracket ends the object. -/
def parseObjRest : Nat → List (List Char × Json) → List Char →
    Option (Json × List Char)
  | 0, _, _ => none
  | fuel + 1, acc, s =>
    match skipWs s with
    | [] => none
    | c :: r =>
      if c = ',' then
        match skipWs r with
        | [] => none
        | c2 :: r2 =>
          if c2 = '"' then
            match parseStrBody (r2.length + 1) r2 with
            | some (k, r3) => parseMember fuel acc k r3
            | none => none
          else none
      else if c = rbrace then some (.obj acc, r)
      else none

end

/-- Python json.loads restricted as documented on parseVal: parse one value
and require that only whitespace follows it. -/
def loads (s : List Char) : Option Json :=
  match parseVal (2 * s.length + 4) s with
  | some (v, rest) => if skipWs rest = [] then some v else none
  | none => none

/-- A timed model of one output pipe of the child process: each byte is
paired with the wall-clock instant at which it becomes readable, in
nondecreasing order, and close gives the instant (after all bytes) at
which end-of-stream becomes observable; none means the stream never
closes.  Instants are measured from the moment read_message is called, so
its deadline is simply its timeout argument. -/
structure TStream where
  bytes : List (Nat × Char)
  close : Option Nat

/-- Does a list end with the four-byte header terminator CR LF CR LF?
Models header.endswith in read_message. -/
def endsCRLF2 (l : List Char) : Bool :=
  match l.reverse with
  | a :: b :: c :: d :: _ => a == lfChar && b == crChar && c == lfChar && d == crChar
  | _ => false

/-- Outcome of the header-scanning loop of read_message (profile_startup
lines 43-56): the loop times out, observes a closed stream, or breaks with
the accumulated header and the unconsumed remainder of the stream. -/
inductive HeaderOut where
  | timeout : HeaderOut
  | closed : HeaderOut
  | done (header : List Char) (rest : TStream) : HeaderOut

/-- The header loop of read_message: while the clock is before the
deadline, select then read one byte.  A byte arriving before the deadline
is appended to the header; a read of zero bytes means the stream closed; a
header now ending in CR LF CR LF breaks the loop; if no byte and no close
become readable before the deadline the loop exits by timeout. -/
def rmHeaderAux (close : Option Nat) (deadline : Nat) :
    List Char → List (Nat × Char) → HeaderOut
  | _, [] =>
    match close with
    | some t => if t < deadline then .closed else .timeout
    | none => .timeout
  | acc, (t, c) :: rest =>
    if t < deadline then
      if endsCRLF2 (acc ++ [c]) then .done (acc ++ [c]) ⟨rest, close⟩
      else rmHeaderAux close deadline (acc ++ [c]) rest
    else .timeout

/-- Header scan over a stream, starting from an empty accumulator. -/
def rmHeader (s : TStream) (deadline : Nat) : HeaderOut :=
  rmHeaderAux s.close deadline [] s.bytes

/-- Result of the body read proc.stdout.read(content_length) at line 67 of
profile_startup: this read consults no deadline, so when the stream never
delivers the requested bytes and never closes the call blocks forever
(hang); when the stream closes first the read returns the bytes that did
arrive; a negative argument makes Python read everything until
end-of-stream. -/
inductive BodyOut where
  | hang : BodyOut
  | got (body : List Char) : BodyOut

/-- The deadline-free blocking body read. -/
def readBody (n : Int) (s : TStream) : BodyOut :=
  if n < 0 then
    match s.close with
    | some _ => .got (s.bytes.map Prod.snd)
    | none => .hang
  else if s.bytes.length < n.toNat then
    match s.close with
    | some _ => .got (s.bytes.map Prod.snd)
    | none => .hang
  else .got ((s.bytes.take n.toNat).map Prod.snd)

/-- The pattern matched against each lowercased header line. -/
def clPat : List Char :=
  ['c', 'o', 'n', 't', 'e', 'n', 't', '-', 'l', 'e', 'n', 'g', 't', 'h', ':']

/-- Does the content-length extraction match this header line?  Models
line.lower().startswith applied to the content-length pattern. -/
def clMatches (line : List Char) : Bool := clPat.isPrefixOf (lowerStr line)

/-- The value the extraction draws from a matching line: int of the text
between the first and second colon, stripped; none when the indexing or
int() raises. -/
def clValue (line : List Char) : Option Int :=
  match (splitColon line).get? 1 with
  | none => none
  | some v => pyInt (pyStrip v)

/-- One step of the content-length extraction loop of read_message
(profile_startup lines 59-62): a line whose lowercase form starts with
content-length: replaces the current value by the int value of its second
colon-separated piece; a missing piece or an int failure raises, modelled
as an error that aborts the fold.  The loop has no break, so a later
matching line overwrites an earlier one. -/
def contentLengthStep (st : Except Unit Int) (line : List Char) :
    Except Unit Int :=
  match st with
  | .error e => .error e
  | .ok cl =>
    if clMatches line then
      match clValue line with
      | none => .error ()
      | some k => .ok k
    else .ok cl

/-- The content-length value extracted from the header lines, starting from
the initial value zero. -/
def contentLengthOf (lines : List (List Char)) : Except Unit Int :=
  lines.foldl contentLengthStep (.ok 0)

/-- Exhaustive classification of one call to read_message, one constructor
per return, raise, or block point of the source. -/
inductive ReadCore where
  | timeout : ReadCore
  | closed : ReadCore
  | headerError : ReadCore
  | zeroLength : ReadCore
  | bodyHang : ReadCore
  | parseError : ReadCore
  | message (j : Json) : ReadCore

/-- The full decode pipeline of read_message: scan the header under the
deadline, split the stripped header block into CR LF separated lines,
extract the content length, return None when it is zero without touching
the body, otherwise block-read the body and hand it to json.loads. -/
def readMessageCore (s : TStream) (timeoutArg : Nat) : ReadCore :=
  match rmHeader s timeoutArg with
  | .timeout => .timeout
  | .closed => .closed
  | .done header rest =>
    match contentLengthOf (splitCRLF (pyStrip header)) with
    | .error _ => .headerError
    | .ok cl =>
      if cl = 0 then .zeroLength
      else
        match readBody cl rest with
        | .hang => .bodyHang
        | .got body =>
          match loads body with
          | none => .parseError
          | some j => .message j

/-- What a caller of read_message observes: a returned value (None or a
decoded message), an uncaught exception, or a call that never returns. -/
inductive PyOutcome where
  | ret (v : Option Json) : PyOutcome
  | exc : PyOutcome
  | hang : PyOutcome

/-- The observable behaviour of read_message: timeout, clean close, and a
zero or absent content length all return None; int or json failures raise;
the body read can block forever; otherwise the decoded message is
returned. -/
def readMessage (s : TStream) (timeoutArg : Nat) : PyOutcome :=
  match readMessageCore s timeoutArg with
  | .timeout => .ret none
  | .closed => .ret none
  | .headerError => .exc
  | .zeroLength => .ret none
  | .bodyHang => .hang
  | .parseError => .exc
  | .message j => .ret (some j)

/-- The literal header key and separator written by send_message. -/
def clHeaderPrefix : List Char :=
  ['C', 'o', 'n', 't', 'e', 'n', 't', '-', 'L', 'e', 'n', 'g', 't', 'h',
   ':', ' ']

/-- The bytes send_message writes for a message: the Content-Length header
with the length of the serialized body, the blank line, then the body
(profile_startup lines 17-22).  json.dumps with ensure_ascii yields pure
ASCII, so the Python len of the body string equals its UTF-8 byte
length. -/
def sendBytes (m : Json) : List Char :=
  ((clHeaderPrefix ++ natStr (dumps m).length) ++ [crChar, lfChar, crChar, lfChar])
    ++ dumps m

/-- A stream delivering the given bytes immediately (all arrival instants
zero) and closing right after them, modelling a child that writes one
encoded message promptly and exits. -/
def promptStream (cs : List Char) : TStream :=
  ⟨cs.map (fun c => (0, c)), some 0⟩

/-- Lookup in a JSON object, modelling Python dict indexing and dict.get on
the decoded message. -/
def jLookup (kvs : List (List Char × Json)) (k : List Char) : Option Json :=
  (kvs.find? (fun kv => kv.1 = k)).map Prod.snd

/-- The seven characters of the file scheme prefix removed from
notification uris. -/
def fileSchemePat : List Char := ['f', 'i', 'l', 'e', ':', '/', '/']

/-- A file uri for a path, as built by the f-strings of the script. -/
def fileUri (path : List Char) : List Char := fileSchemePat ++ path

/-- Fuelled core of the scheme-stripping scan; the fuel always exceeds the
input length, so it never runs out. -/
def stripFSCore : Nat → List Char → List Char
  | 0, s => s
  | _, [] => []
  | fuel + 1, c :: rest =>
    if fileSchemePat.isPrefixOf (c :: rest) then stripFSCore fuel (rest.drop 6)
    else c :: stripFSCore fuel rest

/-- Python uri.replace removing every non-overlapping occurrence of the
file scheme prefix, scanning left to right. -/
def stripFileScheme (s : List Char) : List Char := stripFSCore s.length s

/-- os.path.basename on a POSIX path: the suffix after the last slash. -/
def basename (s : List Char) : List Char :=
  s.foldl (fun acc c => if c = '/' then [] else acc ++ [c]) []

/-- Python dict assignment d at k becomes v: overwrite the value at an
existing key keeping its position, else append the pair. -/
def dictSet (d : List (List Char × Nat)) (k : List Char) (v : Nat) :
    List (List Char × Nat) :=
  if d.any (fun kv => kv.1 = k) then
    d.map (fun kv => if kv.1 = k then (k, v) else kv)
  else d ++ [(k, v)]

/-- The issubset check of the wait loop: every required key occurs among
the keys of the accumulated mapping. -/
def subsetKeys (req : List (List Char)) (d : List (List Char × Nat)) : Bool :=
  req.all (fun k => d.any (fun kv => kv.1 = k))

/-- The notification method the wait loop matches on. -/
def diagMethod : List Char := "textDocument/publishDiagnostics".toList

/-- The key of the method field of a decoded message. -/
def methodKey : List Char := "method".toList

/-- The key of the params field of a decoded message. -/
def paramsKey : List Char := "params".toList

/-- The key of the uri field of publishDiagnostics params. -/
def uriKey : List Char := "uri".toList

/-- The key of the diagnostics field of publishDiagnostics params. -/
def diagnosticsKey : List Char := "diagnostics".toList

/-- One iteration body of the diagnostics wait loop of profile_startup
(lines 189-212) applied to one decoded message.  A non-dict message makes
msg.get raise (none = exception).  A message whose method field is absent
or differs from the expected notification method is left entirely
unhandled and the loop moves on.  A matching notification must carry
params holding a string uri and an array of diagnostics (otherwise the
indexing raises); its uri is stripped of the file scheme and reduced to
its basename, the diagnostics count is recorded under that basename
overwriting any previous entry, and the returned flag says whether the
basenames of the opened files are now a subset of the recorded keys, which
is the condition on which the loop breaks. -/
def diagStep (files : List (List Char)) (d : List (List Char × Nat))
    (m : Json) : Option (List (List Char × Nat) × Bool) :=
  match m with
  | .obj kvs =>
    match jLookup kvs methodKey with
    | some (.str s) =>
      if s = diagMethod then
        match jLookup kvs paramsKey with
        | some (.obj ps) =>
          match jLookup ps uriKey, jLookup ps diagnosticsKey with
          | some (.str uri), some (.arr diags) =>
            let d2 := dictSet d (basename (stripFileScheme uri)) diags.length
            some (d2, subsetKeys (files.map basename) d2)
          | _, _ => none
        | _ => none
      else some (d, false)
    | _ => some (d, false)
  | _ => none

/-- The diagnostics wait loop over the sequence of successfully decoded
messages (a read_message call returning None merely continues, and the
overall deadline ends the loop once the message sequence is exhausted).
Returns none when an iteration raised; otherwise the final mapping, the
flag saying whether the loop exited satisfied (break), and the messages
left unconsumed after the break. -/
def waitLoop (files : List (List Char)) (d : List (List Char × Nat)) :
    List Json → Option (List (List Char × Nat) × Bool × List Json)
  | [] => some (d, false, [])
  | m :: ms =>
    match diagStep files d m with
    | none => none
    | some (d2, true) => some (d2, true, ms)
    | some (d2, false) => waitLoop files d2 ms

/-- A publishDiagnostics notification carrying the given uri and list of
diagnostics, the shape of message the wait loop consumes. -/
def diagMsg (uri : List Char) (diags : List Json) : Json :=
  .obj [(methodKey, .str diagMethod),
        (paramsKey, .obj [(uriKey, .str uri), (diagnosticsKey, .arr diags)])]

/-- Wall-clock duration in milliseconds and whether the child was forcibly
killed, for the shutdown sequence of profile_startup (lines 231-239): send
the shutdown request, sleep a fixed 200 ms, send the exit notification,
wait up to 5000 ms for the child to exit, kill it on timeout.  The child
is modelled by the time it takes to exit on its own after the exit
notification, none meaning it never exits.  The sequence performs no read
of the protocol stream, so whether or when the child answers the shutdown
request cannot influence it. -/
def shutdownStartup (exitAfter : Option Nat) : Nat × Bool :=
  match exitAfter with
  | some t => if t ≤ 5000 then (200 + t, false) else (5200, true)
  | none => (5200, true)

/-- Outcome of the shutdown sequence of profile_simple (lines 136-140):
send the shutdown request, sleep a fixed 500 ms, send the exit
notification, then proc.wait bounded by 10 s with no exception handler.
When the child exits in time the sequence completes; otherwise
subprocess.TimeoutExpired propagates out of main and the child is left
running, never killed. -/
inductive SimpleShutdownOut where
  | completed (elapsedMs : Nat) : SimpleShutdownOut
  | raised (childStillRunning : Bool) : SimpleShutdownOut
deriving DecidableEq

/-- The profile_simple shutdown sequence against a child that exits the
given time after the exit notification (none: never). -/
def shutdownSimple (exitAfter : Option Nat) : SimpleShutdownOut :=
  match exitAfter with
  | some t => if t ≤ 10000 then .completed (500 + t) else .raised true
  | none => .raised true

mutual

/-- A JSON value that a Python program can actually build and hand to
json.dumps: since Python dicts hold each key once, every object has
pairwise distinct keys, recursively. -/
def validJson : Json → Bool
  | .null => true
  | .bool _ => true
  | .int _ => true
  | .str _ => true
  | .arr xs => validElems xs
  | .obj kvs => decide ((kvs.map Prod.fst).Nodup) && validMembers kvs

/-- Validity of every element of an array. -/
def validElems : List Json → Bool
  | [] => true
  | x :: xs => validJson x && validElems xs

/-- Validity of every member value of an object. -/
def validMembers : List (List Char × Json) → Bool
  | [] => true
  | (_, v) :: kvs => validJson v && validMembers kvs

end

/-- The key of the id field of a message. -/
def idKey : List Char := "id".toList

/-- The key of the result field of a response. -/
def resultKey : List Char := "result".toList

/-- The key of the error field of a response. -/
def errorKey : List Char := "error".toList

/-- Does an object carry the given key? -/
def hasKey (kvs : List (List Char × Json)) (k : List Char) : Bool :=
  kvs.any (fun kv => kv.1 = k)

/-- The Message invariant of the specification data model: a message is a
top-level object with request shape (id and method), response shape (id
and exactly one of result or error), or notification shape (method and no
id). -/
def isMessage : Json → Bool
  | .obj kvs =>
    (hasKey kvs idKey && hasKey kvs methodKey) ||
    (hasKey kvs idKey && (hasKey kvs resultKey).xor (hasKey kvs errorKey)) ||
    (hasKey kvs methodKey && !hasKey kvs idKey)
  | _ => false

mutual

/-- An upper bound on the parser fuel consumed when reparsing the dump of a
value; a bookkeeping measure only. -/
def jfuel : Json → Nat
  | .null => 1
  | .bool _ => 1
  | .int _ => 1
  | .str _ => 1
  | .arr xs => 1 + jfuelElems xs
  | .obj kvs => 1 + jfuelMembers kvs

/-- Fuel bound for the element loop of an array. -/
def jfuelElems : List Json → Nat
  | [] => 1
  | x :: xs => 1 + jfuel x + jfuelElems xs

/-- Fuel bound for the member loop of an object. -/
def jfuelMembers : List (List Char × Json) → Nat
  | [] => 1
  | (_, v) :: kvs => 2 + jfuel v + jfuelMembers kvs

end

/-- The characters that may legally follow a serialized value inside a
larger dump without extending it: nothing, or a character that neither
continues a numeral nor turns it into a float. -/
def delimOk (rest : List Char) : Prop :=
  match rest with
  | [] => True
  | c :: _ => c.isDigit = false ∧ c ≠ '.' ∧ c ≠ 'e' ∧ c ≠ 'E'

/-! Claim theorems, preceded by the helper lemmas they share. -/

/-- Claim C2 counterexample: an elapsed deadline with no input (timeout)
and a clean stream close are both returned by read_message as None — at
these two concrete inputs the two no-message outcomes coincide in the
returned value, refuting the claimed distinctness. -/
theorem c2_counterexample :
    readMessageCore ⟨[], none⟩ 1 = .timeout ∧
    readMessageCore ⟨[], some 0⟩ 5 = .closed ∧
    readMessage ⟨[], none⟩ 1 = .ret none ∧
    readMessage ⟨[], some 0⟩ 5 = .ret none ∧
    readMessage ⟨[], none⟩ 1 = readMessage ⟨[], some 0⟩ 5 :=
  ⟨rfl, rfl, rfl, rfl, rfl⟩

/-- Claim C2 amended: read_message returns None both when its deadline
elapses before the header terminator is found and on a clean stream close
(a read yielding zero bytes); the caller receives the same value None in
both cases and cannot tell them apart. -/
theorem c2_amended (s s2 : TStream) (d d2 : Nat)
    (h1 : readMessageCore s d = .timeout)
    (h2 : readMessageCore s2 d2 = .closed) :
    readMessage s d = .ret none ∧ readMessage s2 d2 = .ret none ∧
    readMessage s d = readMessage s2 d2 := by
  unfold readMessage
  rw [h1, h2]
  exact ⟨rfl, rfl, rfl⟩

/-- Witness for the amended claim C2 at concrete streams. -/
theorem c2_amended_witness :
    readMessage ⟨[], none⟩ 2 = .ret none ∧
    readMessage ⟨[], some 0⟩ 3 = .ret none ∧
    readMessage ⟨[], none⟩ 2 = readMessage ⟨[], some 0⟩ 3 :=
  c2_amended ⟨[], none⟩ ⟨[], some 0⟩ 2 3 rfl rfl

/-- Claim C8 counterexample: against a child that never exits on its own,
the shutdown sequence of profile_simple (one of the claim's cited sources)
lets subprocess.TimeoutExpired propagate with the child still running: the
process is not forcibly terminated, refuting the claim that the shutdown
sequence always forcibly terminates an unresponsive server and returns
within the grace-plus-kill bound. -/
theorem c8_counterexample : shutdownSimple none = .raised true := rfl

/-- Claim C8 amended: profile_startup's shutdown sends the request, sleeps
a fixed 200 ms without ever reading a response, sends exit, waits up to
5000 ms for the child to exit and kills it on timeout — so it always
finishes within 5200 ms, and the child is killed unless it exited on its
own within the 5000 ms bound; profile_simple's shutdown instead waits up
to 10 s and, against a child that never exits, raises TimeoutExpired
without killing it. -/
theorem c8_amended :
    (∀ e : Option Nat, (shutdownStartup e).1 ≤ 5200 ∧
      ((shutdownStartup e).2 = true ∨ ∃ t, e = some t ∧ t ≤ 5000)) ∧
    shutdownSimple none = .raised true := by
  refine ⟨?_, rfl⟩
  intro e
  cases e with
  | none => exact ⟨by simp [shutdownStartup], Or.inl rfl⟩
  | some t =>
    by_cases h : t ≤ 5000
    · refine ⟨?_, Or.inr ⟨t, rfl, h⟩⟩
      simp only [shutdownStartup, if_pos h]
      omega
    · exact ⟨by simp [shutdownStartup, h], Or.inl (by simp [shutdownStartup, h])⟩

/-- Claim C6 counterexample: a response message carrying no method field,
received during the diagnostics wait, is dropped on the floor — the
iteration leaves the accumulated mapping unchanged and reports nothing,
and the loop behaves exactly as if the message had never arrived; no
dispatcher or other handling step exists. -/
theorem c6_counterexample :
    diagStep [['a', '.', 'r']] []
        (.obj [(idKey, .int 1), (resultKey, .obj [])]) = some ([], false) ∧
    waitLoop [['a', '.', 'r']] []
        [.obj [(idKey, .int 1), (resultKey, .obj [])],
         diagMsg ("file:///w/a.r").toList []] =
      waitLoop [['a', '.', 'r']] [] [diagMsg ("file:///w/a.r").toList []] :=
  ⟨rfl, rfl⟩

/-- Claim C6 amended: in the diagnostics wait loop every received dict
message whose method field is absent or different from
textDocument/publishDiagnostics is silently discarded: the iteration
returns the mapping unchanged with no break flag, and the loop continues
on the remaining messages exactly as if that message had not been
received; the script has no generic dispatcher. -/
theorem c6_amended (files : List (List Char)) (d : List (List Char × Nat))
    (kvs : List (List Char × Json)) (ms : List Json)
    (h : ∀ s, jLookup kvs methodKey = some (.str s) → s ≠ diagMethod) :
    diagStep files d (.obj kvs) = some (d, false) ∧
    waitLoop files d (.obj kvs :: ms) = waitLoop files d ms := by
  have hstep : diagStep files d (.obj kvs) = some (d, false) := by
    simp only [diagStep]
    rcases hm : jLookup kvs methodKey with _ | j
    · rfl
    · cases j with
      | str s =>
        have hne : s ≠ diagMethod := h s hm
        simp [hne]
      | null => rfl
      | bool b => rfl
      | int n => rfl
      | arr xs => rfl
      | obj kvs2 => rfl
  refine ⟨hstep, ?_⟩
  conv_lhs => rw [waitLoop]
  rw [hstep]

/-- Witness for the amended claim C6 at a concrete response message. -/
theorem c6_amended_witness :
    diagStep [['x']] [] (.obj [(idKey, .int 7)]) = some ([], false) ∧
    waitLoop [['x']] [] [.obj [(idKey, .int 7)]] = waitLoop [['x']] [] [] :=
  c6_amended [['x']] [] [(idKey, .int 7)] [] (fun _ hs => nomatch hs)

/-- Claim C10: when the decoded header block yields content length zero —
because no line matches Content-Length, or because a matching line
declares 0 — read_message returns None straight from the zero-length
check, before any body byte is read and without raising any error; this is
the same returned value None that a clean stream close produces. -/
theorem c10_zero_length (s : TStream) (d : Nat) (hdr : List Char)
    (rest : TStream) (hscan : rmHeader s d = .done hdr rest)
    (hcl : contentLengthOf (splitCRLF (pyStrip hdr)) = .ok 0) :
    readMessageCore s d = .zeroLength ∧ readMessage s d = .ret none ∧
    readMessage ⟨[], some 0⟩ d = .ret none := by
  have hcore : readMessageCore s d = .zeroLength := by
    unfold readMessageCore
    rw [hscan]
    dsimp only
    rw [hcl]
    rfl
  refine ⟨hcore, ?_, ?_⟩
  · unfold readMessage
    rw [hcore]
  · by_cases hd : 0 < d <;>
      simp [readMessage, readMessageCore, rmHeader, rmHeaderAux, hd]

/-- Claim C3 counterexample: with a header block declaring Content-Length
2 on its first line and Content-Length 4 on its second, the first line
alone would yield 2, but the extraction as written yields 4 and
read_message on such a stream followed by the four bytes of the literal
true returns the message parsed from four body bytes: the body length used
is the last matching line's value, not the first's. -/
theorem c3_counterexample :
    contentLengthStep (.ok 0) ("Content-Length: 2").toList = .ok 2 ∧
    contentLengthOf
        [("Content-Length: 2").toList, ("Content-Length: 4").toList] =
      .ok 4 ∧
    readMessage
        (promptStream
          ((("Content-Length: 2").toList ++ [crChar, lfChar] ++
              ("Content-Length: 4").toList ++
              [crChar, lfChar, crChar, lfChar]) ++
            ['t', 'r', 'u', 'e'])) 1 = .ret (some (.bool true)) :=
  ⟨rfl, rfl, rfl⟩

/-- The extraction fold from an arbitrary starting value: an error is
sticky, a matching line with a readable value replaces the current one, so
the last matching line wins. -/
theorem contentLength_foldl_last (lines : List (List Char)) :
    ∀ v : Int,
      (∀ l ∈ lines, clMatches l = true → (clValue l).isSome = true) →
      lines.foldl contentLengthStep (.ok v) =
        .ok (((lines.filter clMatches).getLast?.bind clValue).getD v) := by
  induction lines with
  | nil => intro v _; rfl
  | cons l ls ih =>
    intro v h
    rw [List.foldl_cons]
    by_cases hm : clMatches l = true
    · obtain ⟨k, hk⟩ := Option.isSome_iff_exists.mp (h l (by simp) hm)
      have hstep : contentLengthStep (.ok v) l = .ok k := by
        simp only [contentLengthStep, hm, if_pos, hk]
      rw [hstep, ih k (fun x hx => h x (by simp [hx]))]
      rw [List.filter_cons_of_pos hm]
      cases hfl : ls.filter clMatches with
      | nil => simp [hfl, hk]
      | cons g gs =>
        have hmem : (g :: gs).getLast (by simp) ∈ ls.filter clMatches := by
          rw [hfl]
          exact List.getLast_mem _
        have hmem2 := List.mem_filter.mp hmem
        obtain ⟨k2, hk2⟩ := Option.isSome_iff_exists.mp
          (h _ (List.mem_cons_of_mem _ hmem2.1) hmem2.2)
        have hlast : (g :: gs).getLast? = some ((g :: gs).getLast (by simp)) :=
          List.getLast?_eq_getLast _ _
        simp [hlast, hk2]
    · have hstep : contentLengthStep (.ok v) l = .ok v := by
        simp only [contentLengthStep]
        rw [if_neg hm]
      rw [hstep, ih v (fun x hx => h x (by simp [hx]))]
      rw [List.filter_cons_of_neg hm]

/-- Claim C3 amended: when the header block contains several lines matching
Content-Length case-insensitively and every matching line carries a
readable integer, the extraction loop of read_message keeps the value of
the last matching line — the loop has no break, so each match overwrites
the previous value and the final one is used as the body length. -/
theorem c3_amended (lines : List (List Char))
    (h : ∀ l ∈ lines, clMatches l = true → (clValue l).isSome = true) :
    contentLengthOf lines =
      .ok (((lines.filter clMatches).getLast?.bind clValue).getD 0) :=
  contentLength_foldl_last lines 0 h

/-- Witness for the amended claim C3 at a duplicated pair of header
lines. -/
theorem c3_amended_witness :
    contentLengthOf
        [("Content-Length: 7").toList, ("Content-Length: 9").toList] =
      .ok 9 :=
  c3_amended
    [("Content-Length: 7").toList, ("Content-Length: 9").toList]
    (by decide)

/-- Witness for claim C10 at a concrete header block with no
Content-Length line. -/
theorem c10_witness :
    readMessageCore
        (promptStream (("X: 1").toList ++ [crChar, lfChar, crChar, lfChar]))
        1 = .zeroLength ∧
    readMessage
        (promptStream (("X: 1").toList ++ [crChar, lfChar, crChar, lfChar]))
        1 = .ret none ∧
    readMessage ⟨[], some 0⟩ 1 = .ret none :=
  c10_zero_length _ 1 (("X: 1").toList ++ [crChar, lfChar, crChar, lfChar])
    ⟨[], some 0⟩ rfl rfl

/-- Appending one character other than LF cannot complete the header
terminator, whose last byte is LF. -/
theorem endsCRLF2_snoc_ne (l : List Char) (c : Char) (hc : c ≠ lfChar) :
    endsCRLF2 (l ++ [c]) = false := by
  unfold endsCRLF2
  rw [List.reverse_append]
  cases hr : l.reverse with
  | nil => simp [hc]
  | cons b t =>
    cases t with
    | nil => simp [hc]
    | cons b2 t2 =>
      cases t2 with
      | nil => simp [hc]
      | cons b3 t3 => simp [hc]

/-- Appending CR LF to an accumulator that is empty or does not end in LF
cannot complete the four-byte terminator. -/
theorem endsCRLF2_snoc_crlf (acc : List Char)
    (h : acc = [] ∨ ∃ a c, acc = a ++ [c] ∧ c ≠ lfChar) :
    endsCRLF2 (acc ++ [crChar, lfChar]) = false := by
  unfold endsCRLF2
  rcases h with rfl | ⟨a, c, rfl, hc⟩
  · rfl
  · rw [show (a ++ [c]) ++ [crChar, lfChar] = a ++ ([c] ++ [crChar, lfChar])
      from by simp]
    rw [List.reverse_append]
    rcases ha : a.reverse with _ | ⟨x, xs⟩
    · rfl
    · simp [hc]

/-- Appending the full CR LF CR LF terminator does complete it. -/
theorem endsCRLF2_term (acc : List Char) :
    endsCRLF2 (acc ++ [crChar, lfChar, crChar, lfChar]) = true := by
  unfold endsCRLF2
  rw [List.reverse_append]
  rfl

/-- Scanning promptly delivered header bytes that contain no LF only
accumulates them: no prefix of the accumulation can end in the
terminator. -/
theorem rmHeaderAux_no_lf (close : Option Nat) (d : Nat) (hd : 1 ≤ d)
    (base : List Char) (hb : ∀ c ∈ base, c ≠ lfChar) :
    ∀ acc tail,
      rmHeaderAux close d acc (base.map (fun c => (0, c)) ++ tail) =
        rmHeaderAux close d (acc ++ base) tail := by
  induction base with
  | nil =>
    intro acc tail
    simp
  | cons c cs ih =>
    intro acc tail
    have hc : c ≠ lfChar := hb c (by simp)
    simp only [List.map_cons, List.cons_append]
    rw [rmHeaderAux]
    rw [if_pos (by omega : (0 : Nat) < d)]
    rw [endsCRLF2_snoc_ne acc c hc]
    simp only [Bool.false_eq_true, if_false]
    rw [ih (fun x hx => hb x (by simp [hx])) (acc ++ [c]) tail]
    simp

/-- Scanning the promptly delivered four terminator bytes completes the
header exactly at its end. -/
theorem rmHeaderAux_term (close : Option Nat) (d : Nat) (hd : 1 ≤ d)
    (acc : List Char) (hacc : acc = [] ∨ ∃ a c, acc = a ++ [c] ∧ c ≠ lfChar)
    (tail : List (Nat × Char)) :
    rmHeaderAux close d acc
        ([crChar, lfChar, crChar, lfChar].map (fun c => (0, c)) ++ tail) =
      .done (acc ++ [crChar, lfChar, crChar, lfChar]) ⟨tail, close⟩ := by
  have hd0 : (0 : Nat) < d := by omega
  simp only [List.map_cons, List.map_nil, List.cons_append, List.nil_append]
  rw [rmHeaderAux, if_pos hd0,
    endsCRLF2_snoc_ne acc crChar (by decide)]
  simp only [Bool.false_eq_true, if_false]
  rw [rmHeaderAux, if_pos hd0]
  rw [show acc ++ [crChar] ++ [lfChar] = acc ++ [crChar, lfChar] from by simp]
  rw [endsCRLF2_snoc_crlf acc hacc]
  simp only [Bool.false_eq_true, if_false]
  rw [rmHeaderAux, if_pos hd0]
  rw [show acc ++ [crChar, lfChar] ++ [crChar] = (acc ++ [crChar, lfChar]) ++ [crChar]
    from by simp]
  rw [endsCRLF2_snoc_ne _ crChar (by decide)]
  simp only [Bool.false_eq_true, if_false]
  rw [rmHeaderAux, if_pos hd0]
  rw [show acc ++ [crChar, lfChar] ++ [crChar] ++ [lfChar] =
      acc ++ [crChar, lfChar, crChar, lfChar] from by simp]
  rw [endsCRLF2_term acc]
  simp

/-- The header loop of read_message consumes exactly an LF-free header
followed by the terminator when those bytes are all promptly available,
leaving the remaining stream untouched. -/
theorem rmHeader_prompt (base : List Char) (hb : ∀ c ∈ base, c ≠ lfChar)
    (tail : List (Nat × Char)) (close : Option Nat) (d : Nat) (hd : 1 ≤ d) :
    rmHeader
        ⟨(base ++ [crChar, lfChar, crChar, lfChar]).map (fun c => (0, c)) ++
          tail, close⟩ d =
      .done (base ++ [crChar, lfChar, crChar, lfChar]) ⟨tail, close⟩ := by
  unfold rmHeader
  simp only [List.map_append, List.append_assoc]
  rw [rmHeaderAux_no_lf close d hd base hb [] _]
  have hacc : base = [] ∨ ∃ a c, base = a ++ [c] ∧ c ≠ lfChar := by
    rcases List.eq_nil_or_concat base with h | ⟨a, c, hbase⟩
    · exact Or.inl h
    · refine Or.inr ⟨a, c, by simpa [List.concat_eq_append] using hbase, ?_⟩
      refine hb c ?_
      rw [hbase]
      simp [List.concat_eq_append]
  simp only [List.nil_append]
  rw [rmHeaderAux_term close d hd base hacc tail]

/-- Claim C5 counterexample: a stream whose header arrives promptly but
whose four declared body bytes only become available at instant 1000000,
far beyond the deadline 5, still yields the decoded message rather than a
timeout; and when the body bytes never arrive on a never-closing stream
the call blocks forever instead of timing out. -/
theorem c5_counterexample :
    readMessage
        ⟨(("Content-Length: 4").toList ++
            [crChar, lfChar, crChar, lfChar]).map (fun c => (0, c)) ++
          [(1000000, 't'), (1000000, 'r'), (1000000, 'u'), (1000000, 'e')],
         some 1000000⟩ 5 = .ret (some (.bool true)) ∧
    readMessage
        ⟨(("Content-Length: 4").toList ++
            [crChar, lfChar, crChar, lfChar]).map (fun c => (0, c)),
         none⟩ 5 = .hang :=
  ⟨rfl, rfl⟩

/-- Claim C5 amended: only the header phase of read_message is bounded by
the deadline.  The body read consults no clock: once the header declaring
four body bytes has been scanned, those bytes produce the decoded message
no matter how far beyond any deadline they arrive, and if they never
arrive on a never-closing stream the call blocks forever rather than
returning a timeout. -/
theorem c5_amended (t d : Nat) (hd : 1 ≤ d) :
    readMessage
        ⟨(("Content-Length: 4").toList ++
            [crChar, lfChar, crChar, lfChar]).map (fun c => (0, c)) ++
          [(t, 't'), (t, 'r'), (t, 'u'), (t, 'e')], some t⟩ d =
      .ret (some (.bool true)) ∧
    readMessage
        ⟨(("Content-Length: 4").toList ++
            [crChar, lfChar, crChar, lfChar]).map (fun c => (0, c)),
         none⟩ d = .hang := by
  constructor
  · unfold readMessage readMessageCore
    rw [rmHeader_prompt ("Content-Length: 4").toList (by decide) _ _ d hd]
    rfl
  · unfold readMessage readMessageCore
    rw [show (("Content-Length: 4").toList ++
          [crChar, lfChar, crChar, lfChar]).map (fun c => ((0 : Nat), c)) =
        (("Content-Length: 4").toList ++
          [crChar, lfChar, crChar, lfChar]).map (fun c => ((0 : Nat), c)) ++ []
      from by simp]
    rw [rmHeader_prompt ("Content-Length: 4").toList (by decide) [] none d hd]
    rfl

/-- Witness for the amended claim C5 with body bytes arriving at instant
1000000 against deadline 7. -/
theorem c5_amended_witness :
    readMessage
        ⟨(("Content-Length: 4").toList ++
            [crChar, lfChar, crChar, lfChar]).map (fun c => (0, c)) ++
          [(1000000, 't'), (1000000, 'r'), (1000000, 'u'), (1000000, 'e')],
         some 1000000⟩ 7 = .ret (some (.bool true)) ∧
    readMessage
        ⟨(("Content-Length: 4").toList ++
            [crChar, lfChar, crChar, lfChar]).map (fun c => (0, c)),
         none⟩ 7 = .hang :=
  c5_amended 1000000 7 (by omega)

/-- Claim C4 counterexample: a stream declaring Content-Length 10 that
closes after delivering only the four bytes of the literal true makes
read_message silently return the message parsed from the short body — no
protocol error and no stream-closed condition is reported. -/
theorem c4_counterexample :
    readMessage
        (promptStream
          ((("Content-Length: 10").toList ++
              [crChar, lfChar, crChar, lfChar]) ++ ['t', 'r', 'u', 'e'])) 1 =
      .ret (some (.bool true)) := rfl

/-- Claim C4 amended: when the stream closes after delivering fewer than
the declared number of body bytes, read_message hands whatever bytes did
arrive straight to json.loads: if the truncated body happens to parse as
JSON the message is silently returned, otherwise the decode exception
propagates; no distinct protocol-error or stream-closed condition
exists. -/
theorem c4_amended (s : TStream) (d : Nat) (hdr : List Char) (rest : TStream)
    (L : Int) (hscan : rmHeader s d = .done hdr rest)
    (hcl : contentLengthOf (splitCRLF (pyStrip hdr)) = .ok L)
    (hpos : 0 < L) (hshort : rest.bytes.length < L.toNat)
    (tc : Nat) (hclose : rest.close = some tc) :
    readMessage s d =
      (match loads (rest.bytes.map Prod.snd) with
       | some j => .ret (some j)
       | none => .exc) := by
  unfold readMessage readMessageCore
  rw [hscan]
  dsimp only
  rw [hcl]
  dsimp only
  rw [if_neg (by omega : ¬ L = 0)]
  unfold readBody
  rw [if_neg (by omega : ¬ L < 0), if_pos hshort, hclose]
  dsimp only
  cases loads (rest.bytes.map Prod.snd) <;> rfl

/-- Witness for the amended claim C4: a short body that is not valid JSON
makes read_message raise. -/
theorem c4_amended_witness :
    readMessage
        (promptStream
          ((("Content-Length: 10").toList ++
              [crChar, lfChar, crChar, lfChar]) ++ ['t', 'r', 'u'])) 1 =
      .exc :=
  c4_amended _ 1
    (("Content-Length: 10").toList ++ [crChar, lfChar, crChar, lfChar])
    ⟨['t', 'r', 'u'].map (fun c => (0, c)), some 0⟩ 10 rfl rfl
    (by decide) (by decide) 0 rfl


/-- Claim C7: the diagnostics wait loop exits satisfied exactly at the
notification that supplies the last required key.  If the loop passes
through a prefix of the message stream without ever satisfying the subset
condition, and the next message is a notification whose recording makes
the required basenames a subset of the accumulated keys, the loop breaks
immediately after that message — not before it (the prefix ended
unsatisfied) and not after it (every later message is returned
unconsumed). -/
theorem c7_exit_at_last_key (files : List (List Char)) (pre : List Json)
    (d0 dpre dlast : List (List Char × Nat)) (mlast : Json)
    (post : List Json)
    (hpre : waitLoop files d0 pre = some (dpre, false, []))
    (hlast : diagStep files dpre mlast = some (dlast, true)) :
    waitLoop files d0 (pre ++ mlast :: post) = some (dlast, true, post) := by
  induction pre generalizing d0 with
  | nil =>
    have hd : d0 = dpre := by
      have := hpre
      simp only [waitLoop] at this
      exact (Prod.mk.injEq _ _ _ _ ▸ (Option.some.injEq _ _ ▸ this)).1
    subst hd
    simp only [List.nil_append]
    conv_lhs => rw [waitLoop]
    rw [hlast]
  | cons m pre ih =>
    rw [List.cons_append]
    conv_lhs => rw [waitLoop]
    rw [waitLoop] at hpre
    rcases hstep : diagStep files d0 m with _ | ⟨d2, b⟩
    · rw [hstep] at hpre
      exact absurd hpre (by simp)
    · rw [hstep] at hpre
      cases b with
      | false =>
        dsimp only at hpre ⊢
        exact ih d2 hpre
      | true =>
        dsimp only at hpre
        exact absurd hpre (by simp)

/-- Witness for claim C7, mirroring the specification scenario: required
keys for two files, notifications arriving for the first then the second
then an irrelevant third; the loop breaks exactly after the second,
leaving the third unconsumed. -/
theorem c7_witness :
    waitLoop [("/w/a.r").toList, ("/w/b.r").toList] []
        [diagMsg ("file:///w/a.r").toList [],
         diagMsg ("file:///w/b.r").toList [.null],
         diagMsg ("file:///w/c.r").toList []] =
      some ([(("a.r").toList, 0), (("b.r").toList, 1)], true,
        [diagMsg ("file:///w/c.r").toList []]) :=
  c7_exit_at_last_key [("/w/a.r").toList, ("/w/b.r").toList]
    [diagMsg ("file:///w/a.r").toList []] [] [(("a.r").toList, 0)]
    [(("a.r").toList, 0), (("b.r").toList, 1)]
    (diagMsg ("file:///w/b.r").toList [.null])
    [diagMsg ("file:///w/c.r").toList []] rfl rfl


/-- One wait-loop iteration on a well-formed publishDiagnostics
notification records the diagnostics count under the basename of the
scheme-stripped uri and reports the subset condition. -/
theorem diagStep_diagMsg (files : List (List Char))
    (d : List (List Char × Nat)) (u : List Char) (ds : List Json) :
    diagStep files d (diagMsg u ds) =
      some (dictSet d (basename (stripFileScheme u)) ds.length,
        subsetKeys (files.map basename)
          (dictSet d (basename (stripFileScheme u)) ds.length)) := rfl

/-- Overwriting a one-entry mapping at its own key keeps one entry with the
new value. -/
theorem dictSet_single_overwrite (k : List Char) (n1 n2 : Nat) :
    dictSet [(k, n1)] k n2 = [(k, n2)] := by
  simp [dictSet]

/-- A scan that never sees the file scheme leaves the string unchanged,
whatever the fuel. -/
theorem stripFSCore_no_occ (fuel : Nat) :
    ∀ s : List Char, ¬ fileSchemePat <:+: s → stripFSCore fuel s = s := by
  induction fuel with
  | zero =>
    intro s _
    cases s <;> rfl
  | succ fuel ih =>
    intro s h
    cases s with
    | nil => rfl
    | cons c rest =>
      rw [stripFSCore]
      rw [if_neg ?hpre]
      case hpre =>
        intro hpre
        exact h ((List.isPrefixOf_iff_prefix.mp hpre).isInfix)
      rw [ih rest ?hrest]
      case hrest =>
        intro hin
        rcases hin with ⟨a, b, hab⟩
        exact h ⟨c :: a, b, by rw [← hab]; rfl⟩

/-- Stripping the scheme from a file uri whose body contains no further
occurrence yields exactly the body. -/
theorem stripFSCore_scheme (fuel : Nat) (p : List Char)
    (h : ¬ fileSchemePat <:+: p) :
    stripFSCore (fuel + 1) (fileSchemePat ++ p) = p := by
  have hpre : fileSchemePat.isPrefixOf
      ('f' :: (['i', 'l', 'e', ':', '/', '/'] ++ p)) = true :=
    List.isPrefixOf_iff_prefix.mpr (List.prefix_append _ _)
  show stripFSCore (fuel + 1) ('f' :: (['i', 'l', 'e', ':', '/', '/'] ++ p)) = p
  rw [stripFSCore, if_pos hpre]
  exact stripFSCore_no_occ fuel p h

/-- The uri.replace call of the wait loop on a scheme-prefixed uri whose
body has no further occurrence of the scheme. -/
theorem stripFileScheme_fileUri (p : List Char)
    (h : ¬ fileSchemePat <:+: p) : stripFileScheme (fileUri p) = p := by
  unfold stripFileScheme fileUri
  rw [show (fileSchemePat ++ p).length = p.length + 6 + 1 from by
    simp [fileSchemePat]
    try omega]
  exact stripFSCore_scheme _ p h

/-- Folding slash-free characters into the basename accumulator just
appends them. -/
theorem basename_foldl_no_slash (b : List Char) :
    ∀ acc, (∀ c ∈ b, c ≠ '/') →
      b.foldl (fun acc c => if c = '/' then [] else acc ++ [c]) acc =
        acc ++ b := by
  induction b with
  | nil =>
    intro acc _
    simp
  | cons c cs ih =>
    intro acc h
    rw [List.foldl_cons, if_neg (h c (by simp))]
    rw [ih (acc ++ [c]) (fun x hx => h x (by simp [hx]))]
    simp

/-- The basename of a path formed by a directory part, a slash and a
slash-free final component is that final component. -/
theorem basename_append_slash (a b : List Char) (hb : ∀ c ∈ b, c ≠ '/') :
    basename ((a ++ ['/']) ++ b) = b := by
  unfold basename
  rw [List.foldl_append, List.foldl_append]
  rw [show List.foldl (fun acc c => if c = '/' then [] else acc ++ [c])
      (List.foldl (fun acc c => if c = '/' then [] else acc ++ [c]) [] a)
      ['/'] = [] from by simp]
  rw [basename_foldl_no_slash b [] hb]
  rfl

/-- The basename fold never leaves a slash in its accumulator. -/
theorem basename_fold_inv (s : List Char) :
    ∀ acc, (∀ c ∈ acc, c ≠ '/') →
      ∀ c ∈ s.foldl (fun acc c => if c = '/' then [] else acc ++ [c]) acc,
        c ≠ '/' := by
  induction s with
  | nil =>
    intro acc h
    simpa using h
  | cons x xs ih =>
    intro acc h
    rw [List.foldl_cons]
    by_cases hx : x = '/'
    · rw [if_pos hx]
      exact ih [] (by simp)
    · rw [if_neg hx]
      refine ih (acc ++ [x]) ?_
      intro c hc
      rcases List.mem_append.mp hc with h1 | h2
      · exact h c h1
      · rw [List.mem_singleton.mp h2]
        exact hx

/-- A basename contains no slash. -/
theorem basename_no_slash (s : List Char) : ∀ c ∈ basename s, c ≠ '/' :=
  basename_fold_inv s [] (by simp)

/-- The file scheme cannot occur inside a path of the shape slash, percent,
slash, then a slash-free component: its first three characters block a
match at the front and the adjacent slashes of the scheme cannot come from
the slash-free tail. -/
theorem no_scheme_in_marked (bn : List Char) (hb : ∀ c ∈ bn, c ≠ '/') :
    ¬ fileSchemePat <:+: ('/' :: '%' :: '/' :: bn) := by
  rintro ⟨s, t, hst⟩
  match s, hst with
  | [], h =>
    simp [fileSchemePat] at h
  | [x], h =>
    simp [fileSchemePat] at h
  | [x, y], h =>
    simp [fileSchemePat] at h
  | x :: y :: z :: a, h =>
    have hbn : a ++ (fileSchemePat ++ t) = bn := by
      have := h
      simp [fileSchemePat] at this
      simpa [fileSchemePat] using this.2.2.2
    have hmem : '/' ∈ bn := by
      rw [← hbn]
      simp [fileSchemePat]
    exact hb '/' hmem rfl


/-- An empty mapping satisfies no nonempty required key set. -/
theorem subsetKeys_nil_false (req : List (List Char)) (hne : req ≠ []) :
    subsetKeys req [] = false := by
  cases req with
  | nil => exact absurd rfl hne
  | cons k ks => simp [subsetKeys]

/-- After setting a key, the mapping carries that key. -/
theorem any_key_dictSet_same (d : List (List Char × Nat)) (k : List Char)
    (v : Nat) : (dictSet d k v).any (fun kv => kv.1 = k) = true := by
  unfold dictSet
  by_cases h : d.any (fun kv => kv.1 = k)
  · rw [if_pos h]
    obtain ⟨kv, hmem, hk⟩ := List.any_eq_true.mp h
    have hk2 : kv.1 = k := by simpa using hk
    refine List.any_eq_true.mpr ⟨(k, v), List.mem_map.mpr ⟨kv, hmem, ?_⟩, by simp⟩
    rw [if_pos hk2]
  · rw [if_neg h]
    exact List.any_eq_true.mpr ⟨(k, v), by simp, by simp⟩

/-- Setting any key preserves the presence of every existing key. -/
theorem any_key_dictSet_mono (d : List (List Char × Nat))
    (k k2 : List Char) (v : Nat)
    (h : d.any (fun kv => kv.1 = k) = true) :
    (dictSet d k2 v).any (fun kv => kv.1 = k) = true := by
  unfold dictSet
  by_cases h2 : d.any (fun kv => kv.1 = k2)
  · rw [if_pos h2]
    obtain ⟨kv, hmem, hk⟩ := List.any_eq_true.mp h
    have hk2 : kv.1 = k := by simpa using hk
    by_cases hkk : kv.1 = k2
    · refine List.any_eq_true.mpr
        ⟨(k2, v), List.mem_map.mpr ⟨kv, hmem, by rw [if_pos hkk]⟩, ?_⟩
      simp [← hkk, hk2]
    · refine List.any_eq_true.mpr
        ⟨kv, List.mem_map.mpr ⟨kv, hmem, by rw [if_neg hkk]⟩, hk⟩
  · rw [if_neg h2]
    obtain ⟨kv, hmem, hk⟩ := List.any_eq_true.mp h
    exact List.any_eq_true.mpr ⟨kv, by simp [hmem], hk⟩

/-- Folding further assignments over a mapping preserves every present
key. -/
theorem any_key_fold_mono (k : List Char) (ps : List (List Char × Nat)) :
    ∀ d, d.any (fun kv => kv.1 = k) = true →
      (ps.foldl (fun acc p => dictSet acc p.1 p.2) d).any
        (fun kv => kv.1 = k) = true := by
  induction ps with
  | nil =>
    intro d h
    simpa using h
  | cons p ps ih =>
    intro d h
    rw [List.foldl_cons]
    exact ih _ (any_key_dictSet_mono d k p.1 p.2 h)

/-- After folding a list of assignments over any starting mapping, every
assigned key is present: the required key set formed by those keys is a
subset of the final keys. -/
theorem subsetKeys_fold_self (ps : List (List Char × Nat)) :
    ∀ d, subsetKeys (ps.map Prod.fst)
      (ps.foldl (fun acc p => dictSet acc p.1 p.2) d) = true := by
  induction ps with
  | nil =>
    intro d
    rfl
  | cons p ps ih =>
    intro d
    rw [List.map_cons]
    unfold subsetKeys
    rw [List.all_cons, Bool.and_eq_true]
    refine ⟨?_, ?_⟩
    · rw [List.foldl_cons]
      exact any_key_fold_mono p.1 ps (dictSet d p.1 p.2)
        (any_key_dictSet_same d p.1 p.2)
    · rw [List.foldl_cons]
      exact ih (dictSet d p.1 p.2)

/-- Once the condition is unsatisfied at entry but satisfied after folding
all the notifications in, the wait loop necessarily exits satisfied at
some point, leaving some suffix unconsumed. -/
theorem waitLoop_breaks (files : List (List Char)) :
    ∀ (ps : List (List Char × List Json)) (d : List (List Char × Nat)),
      subsetKeys (files.map basename) d = false →
      subsetKeys (files.map basename)
        (ps.foldl (fun acc p =>
          dictSet acc (basename (stripFileScheme p.1)) p.2.length) d) =
        true →
      ∃ d2 rest,
        waitLoop files d (ps.map (fun p => diagMsg p.1 p.2)) =
          some (d2, true, rest) := by
  intro ps
  induction ps with
  | nil =>
    intro d h0 h1
    rw [List.foldl_nil] at h1
    rw [h0] at h1
    exact absurd h1 (by simp)
  | cons p ps ih =>
    intro d h0 h1
    rw [List.map_cons]
    by_cases hsat : subsetKeys (files.map basename)
        (dictSet d (basename (stripFileScheme p.1)) p.2.length) = true
    · refine ⟨dictSet d (basename (stripFileScheme p.1)) p.2.length,
        ps.map (fun p => diagMsg p.1 p.2), ?_⟩
      conv_lhs => rw [waitLoop]
      rw [diagStep_diagMsg, hsat]
    · have hfalse : subsetKeys (files.map basename)
          (dictSet d (basename (stripFileScheme p.1)) p.2.length) = false :=
        Bool.eq_false_iff.mpr hsat
      rw [List.foldl_cons] at h1
      obtain ⟨d2, rest, hres⟩ := ih _ hfalse h1
      refine ⟨d2, rest, ?_⟩
      conv_lhs => rw [waitLoop]
      rw [diagStep_diagMsg, hfalse]
      exact hres


/-- The basename key recorded for the marked fake uri built from a file is
exactly the file's basename. -/
theorem marked_key (g : List Char) :
    basename (stripFileScheme (fileUri ('/' :: '%' :: '/' :: basename g))) =
      basename g := by
  rw [stripFileScheme_fileUri _ (no_scheme_in_marked _ (basename_no_slash g))]
  exact basename_append_slash ['/', '%'] (basename g) (basename_no_slash g)

/-- Two equal publishDiagnostics notifications carry the same uri. -/
theorem diagMsg_inj_uri {u u2 : List Char} {ds ds2 : List Json}
    (h : diagMsg u ds = diagMsg u2 ds2) : u = u2 := by
  simp only [diagMsg, Json.obj.injEq, List.cons.injEq, Prod.mk.injEq,
    Json.str.injEq, Json.arr.injEq, and_true, true_and] at h
  exact h.1

/-- Claim C9: the accumulated diagnostics mapping is keyed by the basename
of the scheme-stripped document uri, not by the full uri.  First part: two
notifications whose uris are distinct but share a basename land on a
single entry, the later notification overwriting the earlier count.
Second part: for every nonempty opened-file list with percent-free paths
there is a stream of notifications, none of which carries any opened
file's uri, that still drives the wait loop to exit satisfied. -/
theorem c9_basename_keying :
    (∀ (files : List (List Char)) (u1 u2 : List Char) (ds1 ds2 : List Json),
      u1 ≠ u2 →
      basename (stripFileScheme u1) = basename (stripFileScheme u2) →
      ∃ f1 f2,
        diagStep files [] (diagMsg u1 ds1) =
          some ([(basename (stripFileScheme u1), ds1.length)], f1) ∧
        diagStep files [(basename (stripFileScheme u1), ds1.length)]
            (diagMsg u2 ds2) =
          some ([(basename (stripFileScheme u1), ds2.length)], f2)) ∧
    (∀ files : List (List Char), files ≠ [] →
      (∀ f ∈ files, '%' ∉ f) →
      ∃ ms : List Json,
        (∀ m ∈ ms, ∀ f ∈ files, ∀ ds, m ≠ diagMsg (fileUri f) ds) ∧
        ∃ d2 rest, waitLoop files [] ms = some (d2, true, rest)) := by
  constructor
  · intro files u1 u2 ds1 ds2 hne hbn
    refine ⟨subsetKeys (files.map basename)
        [(basename (stripFileScheme u1), ds1.length)],
      subsetKeys (files.map basename)
        [(basename (stripFileScheme u1), ds2.length)], ?_, ?_⟩
    · rw [diagStep_diagMsg]
      rfl
    · rw [diagStep_diagMsg, ← hbn, dictSet_single_overwrite]
  · intro files hne hpc
    refine ⟨files.map
      (fun f => diagMsg (fileUri ('/' :: '%' :: '/' :: basename f)) []),
      ?_, ?_⟩
    · rintro m hm f hf ds heq
      obtain ⟨g, hg, rfl⟩ := List.mem_map.mp hm
      have huri : fileUri ('/' :: '%' :: '/' :: basename g) = fileUri f :=
        diagMsg_inj_uri heq
      have hpath : '/' :: '%' :: '/' :: basename g = f :=
        List.append_cancel_left huri
      refine hpc f hf ?_
      rw [← hpath]
      simp
    · rw [show files.map
          (fun f => diagMsg (fileUri ('/' :: '%' :: '/' :: basename f)) []) =
        (files.map (fun f =>
          (fileUri ('/' :: '%' :: '/' :: basename f), ([] : List Json)))).map
          (fun p => diagMsg p.1 p.2) from by
        rw [List.map_map]
        rfl]
      refine waitLoop_breaks files _ [] (subsetKeys_nil_false _ ?_) ?_
      · intro hcon
        cases files with
        | nil => exact hne rfl
        | cons f fs => exact absurd hcon (by simp)
      · rw [List.foldl_map]
        have hfun : (fun (acc : List (List Char × Nat)) (f : List Char) =>
            dictSet acc
              (basename (stripFileScheme
                (fileUri ('/' :: '%' :: '/' :: basename f), ([] : List Json)).1))
              (fileUri ('/' :: '%' :: '/' :: basename f), ([] : List Json)).2.length) =
            (fun acc f => dictSet acc (basename f) 0) := by
          funext acc f
          rw [show (fileUri ('/' :: '%' :: '/' :: basename f),
              ([] : List Json)).1 = fileUri ('/' :: '%' :: '/' :: basename f)
            from rfl]
          rw [marked_key]
          rfl
        rw [hfun]
        have hself := subsetKeys_fold_self
          (files.map (fun f => (basename f, 0))) []
        rw [List.map_map, List.foldl_map] at hself
        exact hself

/-- Witness for claim C9: two distinct uris sharing basename f.r collapse
to one overwritten entry, and a single-file required set is satisfied by a
notification whose uri is not the opened file's uri. -/
theorem c9_witness :
    (∃ f1 f2,
      diagStep [] [] (diagMsg ("file:///x/f.r").toList []) =
        some ([(("f.r").toList, 0)], f1) ∧
      diagStep [] [(("f.r").toList, 0)]
          (diagMsg ("file:///y/f.r").toList [.null]) =
        some ([(("f.r").toList, 1)], f2)) ∧
    (∃ ms : List Json,
      (∀ m ∈ ms, ∀ f ∈ [("/w/a.r").toList], ∀ ds,
        m ≠ diagMsg (fileUri f) ds) ∧
      ∃ d2 rest,
        waitLoop [("/w/a.r").toList] [] ms = some (d2, true, rest)) := by
  constructor
  · exact c9_basename_keying.1 [] ("file:///x/f.r").toList
      ("file:///y/f.r").toList [] [.null] (by decide) (by decide)
  · exact c9_basename_keying.2 [("/w/a.r").toList] (by decide) (by decide)


/-- The fuelled decimal core agrees with the Mathlib digit list for
positive numbers. -/
theorem natStrCore_digits (n : Nat) :
    ∀ fuel acc, n < fuel → 1 ≤ n →
      natStrCore fuel n acc =
        ((Nat.digits 10 n).reverse).map Nat.digitChar ++ acc := by
  induction n using Nat.strong_induction_on with
  | _ n ih =>
    intro fuel acc hfuel hpos
    cases fuel with
    | zero => omega
    | succ fuel =>
      rw [natStrCore]
      by_cases hsmall : n < 10
      · rw [if_pos hsmall]
        rw [Nat.digits_def' (by norm_num : (1 : Nat) < 10) (by omega)]
        rw [Nat.div_eq_of_lt hsmall, Nat.digits_zero]
        rw [Nat.mod_eq_of_lt hsmall]
        simp
      · rw [if_neg hsmall]
        rw [ih (n / 10) (by omega) fuel (Nat.digitChar (n % 10) :: acc)
          (by omega) (by omega)]
        rw [Nat.digits_def' (by norm_num : (1 : Nat) < 10) (by omega : 0 < n)]
        rw [List.reverse_cons, List.map_append]
        simp only [List.map_cons, List.map_nil, List.append_assoc,
          List.cons_append, List.nil_append]

/-- Decimal rendering of a positive number is its digit list, most
significant first. -/
theorem natStr_eq_digits (n : Nat) (h : 1 ≤ n) :
    natStr n = ((Nat.digits 10 n).reverse).map Nat.digitChar := by
  have := natStrCore_digits n (n + 1) [] (by omega) h
  simpa [natStr] using this

/-- The character of a digit below ten is an ASCII digit. -/
theorem digitChar_isDigit {d : Nat} (h : d < 10) :
    (Nat.digitChar d).isDigit = true := by
  interval_cases d <;> decide

/-- The character of a nonzero digit below ten is not the zero digit. -/
theorem digitChar_ne_zero {d : Nat} (h : d < 10) (h0 : d ≠ 0) :
    Nat.digitChar d ≠ '0' := by
  interval_cases d <;> simp_all <;> decide

/-- Reading a digit character back as a value. -/
theorem digitChar_toNat {d : Nat} (h : d < 10) :
    (Nat.digitChar d).toNat - 48 = d := by
  interval_cases d <;> decide

/-- Every character of a decimal rendering is a digit. -/
theorem natStr_all_digits (n : Nat) : ∀ c ∈ natStr n, c.isDigit = true := by
  by_cases h : n = 0
  · subst h
    intro c hc
    rw [show natStr 0 = ['0'] from rfl] at hc
    rw [List.mem_singleton.mp hc]
    decide
  · rw [natStr_eq_digits n (by omega)]
    intro c hc
    simp only [List.mem_map, List.mem_reverse] at hc
    obtain ⟨d, hd, rfl⟩ := hc
    exact digitChar_isDigit (Nat.digits_lt_base (by norm_num) hd)

/-- Folding the int() accumulator over a reversed digit list recovers the
value. -/
theorem foldl_digits_val (ds : List Nat) (h : ∀ d ∈ ds, d < 10) :
    ∀ a : Nat,
      List.foldl (fun a c => 10 * a + (c.toNat - 48)) a
        ((ds.reverse).map Nat.digitChar) =
      a * 10 ^ ds.length + Nat.ofDigits 10 ds := by
  induction ds with
  | nil =>
    intro a
    simp
  | cons d ds ih =>
    intro a
    rw [List.reverse_cons, List.map_append, List.foldl_append]
    rw [ih (fun x hx => h x (by simp [hx])) a]
    simp only [List.map_cons, List.map_nil, List.foldl_cons, List.foldl_nil]
    rw [digitChar_toNat (h d (by simp))]
    rw [Nat.ofDigits_cons, List.length_cons]
    ring

/-- int() style evaluation of the decimal rendering recovers the number. -/
theorem digitsVal_natStr (n : Nat) : digitsVal (natStr n) = n := by
  by_cases h : n = 0
  · subst h
    rfl
  · rw [natStr_eq_digits n (by omega)]
    unfold digitsVal
    rw [foldl_digits_val _ (fun d hd => Nat.digits_lt_base (by norm_num) hd) 0]
    simp [Nat.ofDigits_digits]

/-- Structure of the decimal rendering of a positive number: a leading
nonzero digit followed by digits. -/
theorem natStr_head (n : Nat) (h : 1 ≤ n) :
    ∃ c cs, natStr n = c :: cs ∧ c ≠ '0' ∧ c.isDigit = true ∧
      ∀ x ∈ cs, x.isDigit = true := by
  have hne : Nat.digits 10 n ≠ [] :=
    Nat.digits_ne_nil_iff_ne_zero.mpr (by omega)
  have hrev : (Nat.digits 10 n).reverse ≠ [] := by
    simpa using hne
  obtain ⟨d, ds, hds⟩ := List.exists_cons_of_ne_nil hrev
  have hdlast : d = (Nat.digits 10 n).getLast hne := by
    have h1 : (Nat.digits 10 n).reverse.head? = some d := by
      rw [hds]
      rfl
    rw [List.head?_reverse] at h1
    rw [List.getLast?_eq_getLast _ hne] at h1
    exact (Option.some.injEq _ _ ▸ h1).symm
  have hdmem : d ∈ Nat.digits 10 n := by
    have : d ∈ (Nat.digits 10 n).reverse := by
      rw [hds]
      simp
    simpa using this
  have hdlt : d < 10 := Nat.digits_lt_base (by norm_num) hdmem
  have hdne : d ≠ 0 := by
    rw [hdlast]
    exact Nat.getLast_digit_ne_zero 10 (by omega)
  refine ⟨Nat.digitChar d, ds.map Nat.digitChar, ?_, ?_, ?_, ?_⟩
  · rw [natStr_eq_digits n h, hds]
    rfl
  · exact digitChar_ne_zero hdlt hdne
  · exact digitChar_isDigit hdlt
  · intro x hx
    simp only [List.mem_map] at hx
    obtain ⟨e, he, rfl⟩ := hx
    have hemem : e ∈ Nat.digits 10 n := by
      have : e ∈ (Nat.digits 10 n).reverse := by
        rw [hds]
        simp [he]
      simpa using this
    exact digitChar_isDigit (Nat.digits_lt_base (by norm_num) hemem)

/-- Hex digit characters read back as their values. -/
theorem hexVal_hexDigitChar {d : Nat} (h : d < 16) :
    hexVal (hexDigitChar d) = some d := by
  interval_cases d <;> rfl

/-- A four-digit hex quad reads back as its value. -/
theorem hex4Val_hex4 {n : Nat} (h : n < 65536) :
    hex4Val (hexDigitChar (n / 4096 % 16)) (hexDigitChar (n / 256 % 16))
      (hexDigitChar (n / 16 % 16)) (hexDigitChar (n % 16)) = some n := by
  unfold hex4Val
  rw [hexVal_hexDigitChar (Nat.mod_lt _ (by norm_num)),
    hexVal_hexDigitChar (Nat.mod_lt _ (by norm_num)),
    hexVal_hexDigitChar (Nat.mod_lt _ (by norm_num)),
    hexVal_hexDigitChar (Nat.mod_lt _ (by norm_num))]
  dsimp only
  congr 1
  omega


/-- takeWhile and dropWhile on a run of satisfying characters followed by a
non-satisfying head split exactly at the boundary. -/
theorem takeWhile_append_of_all {p : Char → Bool} (cs rest : List Char)
    (hcs : ∀ x ∈ cs, p x = true)
    (hrest : ∀ c, rest.head? = some c → p c = false) :
    (cs ++ rest).takeWhile p = cs ∧ (cs ++ rest).dropWhile p = rest := by
  induction cs with
  | nil =>
    constructor
    · cases rest with
      | nil => rfl
      | cons r rs => simp [List.takeWhile_cons, hrest r rfl]
    · cases rest with
      | nil => rfl
      | cons r rs => simp [List.dropWhile_cons, hrest r rfl]
  | cons x xs ih =>
    have hx := hcs x (by simp)
    obtain ⟨ht, hd⟩ := ih (fun y hy => hcs y (by simp [hy]))
    constructor
    · simp [List.takeWhile_cons, hx, ht]
    · simp [List.dropWhile_cons, hx, hd]

/-- Parsing the digit part of a JSON numeral on a decimal rendering
followed by a non-digit recovers the number and the remainder. -/
theorem parseDigits_natStr (n : Nat) (rest : List Char)
    (hrest : ∀ c, rest.head? = some c → c.isDigit = false) :
    parseDigits (natStr n ++ rest) = some (n, rest) := by
  by_cases h0 : n = 0
  · subst h0
    rw [show natStr 0 = ['0'] from rfl]
    rfl
  · obtain ⟨c, cs, heq, hc0, hcd, hcs⟩ := natStr_head n (by omega)
    rw [heq, List.cons_append]
    rw [parseDigits]
    rw [if_neg hc0, if_pos hcd]
    obtain ⟨ht, hd⟩ := takeWhile_append_of_all cs rest hcs hrest
    rw [ht, hd]
    have hval : digitsVal (c :: cs) = n := by
      rw [← heq]
      exact digitsVal_natStr n
    rw [hval]

/-- The value parser ignores a leading space, exactly as the scanner skips
whitespace first. -/
theorem parseVal_ws (fuel : Nat) (s : List Char) :
    parseVal fuel (' ' :: s) = parseVal fuel s := by
  cases fuel with
  | zero => rfl
  | succ fuel =>
    rw [parseVal, parseVal]
    rw [show skipWs (' ' :: s) = skipWs s from by
      simp [skipWs, List.dropWhile_cons, isJsonWs]]

/-- Packing the code point of a character yields that character back. -/
theorem mkChar_toNat (c : Char) : mkChar c.toNat = some c := by
  unfold mkChar
  rw [dif_pos (show c.toNat.isValidChar from c.valid)]
  have h := Char.ofNat_toNat c
  rw [Char.ofNat, dif_pos (show c.toNat.isValidChar from c.valid)] at h
  rw [h]

/-- The code point of a character is never in the surrogate range. -/
theorem char_not_surrogate (c : Char) :
    c.toNat < 55296 ∨ 57343 < c.toNat := by
  have hv : c.toNat < 55296 ∨ (57343 < c.toNat ∧ c.toNat < 1114112) := c.valid
  rcases hv with h | ⟨h1, _⟩
  · exact Or.inl h
  · exact Or.inr h1

/-- The code point of a character is below the unicode bound. -/
theorem char_lt_bound (c : Char) : c.toNat < 1114112 := by
  have hv : c.toNat < 55296 ∨ (57343 < c.toNat ∧ c.toNat < 1114112) := c.valid
  rcases hv with h | ⟨_, h2⟩
  · omega
  · exact h2


/-- One unfolding step of the string-body scanner on a backslash-u escape. -/
theorem parseStrBody_esc_u (f : Nat) (r : List Char) :
    parseStrBody (f + 1) ('\\' :: 'u' :: r) = parseU (parseStrBody f) r := by
  simp [parseStrBody, parseEsc]

/-- Escaping distributes over cons. -/
theorem escStr_cons (c : Char) (cs : List Char) :
    escStr (c :: cs) = escChar c ++ escStr cs := by
  simp [escStr]

/-- Parsing the escaped body of a string literal up to its closing quote
recovers the original characters: every escape form json.dumps emits is
undone by the scanner, given fuel beyond the escaped length. -/
theorem parseStrBody_escStr (s : List Char) :
    ∀ fuel rest, (escStr s).length + 1 ≤ fuel →
      parseStrBody fuel (escStr s ++ '"' :: rest) = some (s, rest) := by
  induction s with
  | nil =>
    intro fuel rest hfuel
    cases fuel with
    | zero => omega
    | succ f =>
      rw [show escStr [] = [] from rfl, List.nil_append]
      rfl
  | cons c cs ih =>
    intro fuel rest hfuel
    rw [escStr_cons c cs] at hfuel ⊢
    rw [List.append_assoc]
    rw [List.length_append] at hfuel
    have hce : 1 ≤ (escChar c).length := by
      unfold escChar
      split_ifs <;> simp
    cases fuel with
    | zero => omega
    | succ f =>
      unfold escChar at hfuel ⊢
      by_cases h1 : c = '"'
      · subst h1
        rw [if_pos rfl] at hfuel ⊢
        have hf2 : (escStr cs).length + 1 ≤ f := by
          simp at hfuel
          omega
        rw [show (['\\', '"'] : List Char) ++ (escStr cs ++ '"' :: rest) =
            '\\' :: '"' :: (escStr cs ++ '"' :: rest) from rfl]
        rw [show parseStrBody (f + 1)
              ('\\' :: '"' :: (escStr cs ++ '"' :: rest)) =
            (parseStrBody f (escStr cs ++ '"' :: rest)).map
              (fun p => ('"' :: p.1, p.2)) from rfl]
        rw [ih f rest hf2]
        rfl
      · rw [if_neg h1] at hfuel ⊢
        by_cases h2 : c = '\\'
        · subst h2
          rw [if_pos rfl] at hfuel ⊢
          have hf2 : (escStr cs).length + 1 ≤ f := by
            simp at hfuel
            omega
          rw [show (['\\', '\\'] : List Char) ++ (escStr cs ++ '"' :: rest) =
              '\\' :: '\\' :: (escStr cs ++ '"' :: rest) from rfl]
          rw [show parseStrBody (f + 1)
                ('\\' :: '\\' :: (escStr cs ++ '"' :: rest)) =
              (parseStrBody f (escStr cs ++ '"' :: rest)).map
                (fun p => ('\\' :: p.1, p.2)) from rfl]
          rw [ih f rest hf2]
          rfl
        · rw [if_neg h2] at hfuel ⊢
          by_cases h3 : c.toNat = 8
          · rw [if_pos h3] at hfuel ⊢
            have hc : Char.ofNat 8 = c := by
              rw [← h3, Char.ofNat_toNat]
            have hf2 : (escStr cs).length + 1 ≤ f := by
              simp at hfuel
              omega
            rw [show (['\\', 'b'] : List Char) ++ (escStr cs ++ '"' :: rest) =
                '\\' :: 'b' :: (escStr cs ++ '"' :: rest) from rfl]
            rw [show parseStrBody (f + 1)
                  ('\\' :: 'b' :: (escStr cs ++ '"' :: rest)) =
                (parseStrBody f (escStr cs ++ '"' :: rest)).map
                  (fun p => (Char.ofNat 8 :: p.1, p.2)) from rfl]
            rw [ih f rest hf2, hc]
            rfl
          · rw [if_neg h3] at hfuel ⊢
            by_cases h4 : c.toNat = 9
            · rw [if_pos h4] at hfuel ⊢
              have hc : Char.ofNat 9 = c := by
                rw [← h4, Char.ofNat_toNat]
              have hf2 : (escStr cs).length + 1 ≤ f := by
                simp at hfuel
                omega
              rw [show (['\\', 't'] : List Char) ++
                  (escStr cs ++ '"' :: rest) =
                  '\\' :: 't' :: (escStr cs ++ '"' :: rest) from rfl]
              rw [show parseStrBody (f + 1)
                    ('\\' :: 't' :: (escStr cs ++ '"' :: rest)) =
                  (parseStrBody f (escStr cs ++ '"' :: rest)).map
                    (fun p => (Char.ofNat 9 :: p.1, p.2)) from rfl]
              rw [ih f rest hf2, hc]
              rfl
            · rw [if_neg h4] at hfuel ⊢
              by_cases h5 : c.toNat = 10
              · rw [if_pos h5] at hfuel ⊢
                have hc : Char.ofNat 10 = c := by
                  rw [← h5, Char.ofNat_toNat]
                have hf2 : (escStr cs).length + 1 ≤ f := by
                  simp at hfuel
                  omega
                rw [show (['\\', 'n'] : List Char) ++
                    (escStr cs ++ '"' :: rest) =
                    '\\' :: 'n' :: (escStr cs ++ '"' :: rest) from rfl]
                rw [show parseStrBody (f + 1)
                      ('\\' :: 'n' :: (escStr cs ++ '"' :: rest)) =
                    (parseStrBody f (escStr cs ++ '"' :: rest)).map
                      (fun p => (Char.ofNat 10 :: p.1, p.2)) from rfl]
                rw [ih f rest hf2, hc]
                rfl
              · rw [if_neg h5] at hfuel ⊢
                by_cases h6 : c.toNat = 12
                · rw [if_pos h6] at hfuel ⊢
                  have hc : Char.ofNat 12 = c := by
                    rw [← h6, Char.ofNat_toNat]
                  have hf2 : (escStr cs).length + 1 ≤ f := by
                    simp at hfuel
                    omega
                  rw [show (['\\', 'f'] : List Char) ++
                      (escStr cs ++ '"' :: rest) =
                      '\\' :: 'f' :: (escStr cs ++ '"' :: rest) from rfl]
                  rw [show parseStrBody (f + 1)
                        ('\\' :: 'f' :: (escStr cs ++ '"' :: rest)) =
                      (parseStrBody f (escStr cs ++ '"' :: rest)).map
                        (fun p => (Char.ofNat 12 :: p.1, p.2)) from rfl]
                  rw [ih f rest hf2, hc]
                  rfl
                · rw [if_neg h6] at hfuel ⊢
                  by_cases h7 : c.toNat = 13
                  · rw [if_pos h7] at hfuel ⊢
                    have hc : Char.ofNat 13 = c := by
                      rw [← h7, Char.ofNat_toNat]
                    have hf2 : (escStr cs).length + 1 ≤ f := by
                      simp at hfuel
                      omega
                    rw [show (['\\', 'r'] : List Char) ++
                        (escStr cs ++ '"' :: rest) =
                        '\\' :: 'r' :: (escStr cs ++ '"' :: rest) from rfl]
                    rw [show parseStrBody (f + 1)
                          ('\\' :: 'r' :: (escStr cs ++ '"' :: rest)) =
                        (parseStrBody f (escStr cs ++ '"' :: rest)).map
                          (fun p => (Char.ofNat 13 :: p.1, p.2)) from rfl]
                    rw [ih f rest hf2, hc]
                    rfl
                  · rw [if_neg h7] at hfuel ⊢
                    by_cases h8 : 32 ≤ c.toNat ∧ c.toNat ≤ 126
                    · rw [if_pos h8] at hfuel ⊢
                      have hf2 : (escStr cs).length + 1 ≤ f := by
                        simp at hfuel
                        omega
                      rw [show ([c] : List Char) ++
                          (escStr cs ++ '"' :: rest) =
                          c :: (escStr cs ++ '"' :: rest) from rfl]
                      rw [parseStrBody]
                      rw [if_neg h1, if_neg h2,
                        if_neg (by omega : ¬ c.toNat < 32)]
                      rw [ih f rest hf2]
                      rfl
                    · rw [if_neg h8] at hfuel ⊢
                      by_cases h9 : c.toNat < 65536
                      · rw [if_pos h9] at hfuel ⊢
                        have hns : ¬ (55296 ≤ c.toNat ∧ c.toNat ≤ 56319) := by
                          rcases char_not_surrogate c with h | h <;> omega
                        have hf2 : (escStr cs).length + 1 ≤ f := by
                          simp [hex4] at hfuel
                          omega
                        unfold hex4
                        simp only [List.cons_append, List.nil_append]
                        rw [parseStrBody_esc_u]
                        rw [parseU]
                        rw [hex4Val_hex4 h9]
                        dsimp only
                        rw [if_neg hns]
                        rw [mkChar_toNat c]
                        dsimp only
                        rw [ih f rest hf2]
                        rfl
                      · rw [if_neg h9] at hfuel ⊢
                        have hlt : c.toNat < 1114112 := char_lt_bound c
                        have hhi : 55296 + (c.toNat - 65536) / 1024 < 65536 := by
                          omega
                        have hlo : 56320 + (c.toNat - 65536) % 1024 < 65536 := by
                          omega
                        have hsur : 55296 ≤ 55296 + (c.toNat - 65536) / 1024 ∧
                            55296 + (c.toNat - 65536) / 1024 ≤ 56319 := by
                          omega
                        have hlosur :
                            56320 ≤ 56320 + (c.toNat - 65536) % 1024 ∧
                            56320 + (c.toNat - 65536) % 1024 ≤ 57343 := by
                          omega
                        have hcomb : 65536 +
                            1024 * (55296 + (c.toNat - 65536) / 1024 - 55296) +
                            (56320 + (c.toNat - 65536) % 1024 - 56320) =
                            c.toNat := by
                          omega
                        have hf2 : (escStr cs).length + 1 ≤ f := by
                          simp [hex4] at hfuel
                          omega
                        unfold hex4
                        simp only [List.cons_append, List.nil_append,
                          List.append_assoc]
                        rw [parseStrBody_esc_u]
                        rw [parseU]
                        rw [hex4Val_hex4 hhi]
                        dsimp only
                        rw [if_pos hsur]
                        rw [if_pos (show ('\\' : Char) = '\\' ∧ ('u' : Char) = 'u'
                          from ⟨rfl, rfl⟩)]
                        rw [hex4Val_hex4 hlo]
                        dsimp only
                        rw [if_pos hlosur]
                        rw [hcomb, mkChar_toNat c]
                        dsimp only
                        rw [ih f rest hf2]
                        rfl


/-- Every fuel bound is positive. -/
theorem jfuel_pos (m : Json) : 1 ≤ jfuel m := by
  cases m <;> simp [jfuel]

/-- The element-loop fuel bound is positive. -/
theorem jfuelElems_pos (xs : List Json) : 1 ≤ jfuelElems xs := by
  cases xs with
  | nil => simp [jfuelElems]
  | cons x xs =>
    simp [jfuelElems]
    omega

/-- The member-loop fuel bound is positive. -/
theorem jfuelMembers_pos (kvs : List (List Char × Json)) :
    1 ≤ jfuelMembers kvs := by
  cases kvs with
  | nil => simp [jfuelMembers]
  | cons kv kvs =>
    obtain ⟨k, v⟩ := kv
    simp [jfuelMembers]
    omega

/-- The code point range of a decimal digit character. -/
theorem isDigit_toNat {c : Char} (h : c.isDigit = true) :
    48 ≤ c.toNat ∧ c.toNat ≤ 57 := by
  simp [Char.isDigit] at h
  obtain ⟨h1, h2⟩ := h
  exact ⟨h1, h2⟩

/-- Characters with distinct code points are distinct. -/
theorem toNat_ne_imp_ne {c d : Char} (h : c.toNat ≠ d.toNat) : c ≠ d := by
  intro he
  exact h (by rw [he])

/-- Skipping whitespace leaves a non-whitespace-headed list unchanged. -/
theorem skipWs_cons {c : Char} (r : List Char) (h : isJsonWs c = false) :
    skipWs (c :: r) = c :: r := by
  simp [skipWs, List.dropWhile_cons, h]

/-- A number is finished by any delimiter-acceptable remainder. -/
theorem parseNumTail_delim (v : Int) (rest : List Char) (h : delimOk rest) :
    parseNumTail v rest = some (.int v, rest) := by
  cases rest with
  | nil => rfl
  | cons c r =>
    obtain ⟨h1, h2, h3, h4⟩ := h
    unfold parseNumTail
    dsimp only
    rw [if_neg (by simp [h2, h3, h4])]

/-- A serialized value starts with a non-whitespace character that is not a
closing bracket. -/
theorem dumps_head (m : Json) :
    ∃ c t, dumps m = c :: t ∧ isJsonWs c = false ∧ c ≠ ']' := by
  cases m with
  | null => exact ⟨'n', ['u', 'l', 'l'], rfl, by decide, by decide⟩
  | bool b =>
    cases b with
    | true => exact ⟨'t', ['r', 'u', 'e'], rfl, by decide, by decide⟩
    | false => exact ⟨'f', ['a', 'l', 's', 'e'], rfl, by decide, by decide⟩
  | int i =>
    by_cases hi : i < 0
    · refine ⟨'-', natStr i.natAbs, ?_, by decide, by decide⟩
      simp [dumps, intStr, hi]
    · by_cases h0 : i.toNat = 0
      · refine ⟨'0', [], ?_, by decide, by decide⟩
        simp only [dumps, intStr, if_neg hi, h0]
        rfl
      · obtain ⟨c, cs, heq, hc0, hcd, hcs⟩ := natStr_head i.toNat (by omega)
        obtain ⟨hlo, hhi⟩ := isDigit_toNat hcd
        refine ⟨c, cs, ?_, by simp [isJsonWs]; omega,
          toNat_ne_imp_ne (by rw [show (']' : Char).toNat = 93 from rfl]; omega)⟩
        simp only [dumps, intStr, if_neg hi, heq]
  | str s => exact ⟨'"', escStr s ++ ['"'], rfl, by decide, by decide⟩
  | arr xs =>
    cases xs with
    | nil => exact ⟨'[', [']'], rfl, by decide, by decide⟩
    | cons x xs => exact ⟨'[', _, rfl, by decide, by decide⟩
  | obj kvs =>
    cases kvs with
    | nil => exact ⟨lbrace, [rbrace], rfl, by decide, by decide⟩
    | cons kv kvs => exact ⟨lbrace, _, rfl, by decide, by decide⟩

/-- What follows a serialized array element is delimiter-acceptable. -/
theorem delimOk_dumpsArrRest (xs : List Json) (rest : List Char) :
    delimOk (dumpsArrRest xs ++ ']' :: rest) := by
  cases xs with
  | nil => exact ⟨by decide, by decide, by decide, by decide⟩
  | cons x xs => exact ⟨by decide, by decide, by decide, by decide⟩

/-- What follows a serialized object member is delimiter-acceptable. -/
theorem delimOk_dumpsObjRest (kvs : List (List Char × Json)) (rest : List Char) :
    delimOk (dumpsObjRest kvs ++ rbrace :: rest) := by
  cases kvs with
  | nil => exact ⟨by decide, by decide, by decide, by decide⟩
  | cons kv kvs => exact ⟨by decide, by decide, by decide, by decide⟩

/-- Inserting a fresh key into the accumulated object appends the pair. -/
theorem objIns_append (acc : List (List Char × Json)) (k : List Char) (v : Json)
    (h : k ∉ acc.map Prod.fst) : objIns acc k v = acc ++ [(k, v)] := by
  unfold objIns
  rw [if_neg]
  simp only [List.any_eq_true, decide_eq_true_eq]
  rintro ⟨kv, hmem, hk⟩
  exact h (List.mem_map.mpr ⟨kv, hmem, hk⟩)


/-- A delimiter-acceptable remainder does not begin with a digit. -/
theorem delimOk_head_not_digit (rest : List Char) (h : delimOk rest) :
    ∀ c, rest.head? = some c → c.isDigit = false := by
  intro c hc
  cases rest with
  | nil => simp at hc
  | cons r rs =>
    obtain ⟨h1, _, _, _⟩ := h
    simp at hc
    rw [← hc]
    exact h1

/-- Whitespace skipping consumes a leading space. -/
theorem skipWs_space (r : List Char) : skipWs (' ' :: r) = skipWs r := by
  simp [skipWs, List.dropWhile_cons, isJsonWs]

/-- Round trip of the scanner over the serializer, for all four mutual
parsers simultaneously, by induction on fuel: a valid value whose dump is
followed by a delimiter-acceptable remainder is parsed back exactly, and
the element and member loops fold the remaining dumps onto their
accumulators. -/
theorem parse_round : ∀ fuel : Nat,
    (∀ m rest, validJson m = true → delimOk rest → jfuel m ≤ fuel →
      parseVal fuel (dumps m ++ rest) = some (m, rest)) ∧
    (∀ xs acc rest, validElems xs = true → delimOk rest →
      jfuelElems xs ≤ fuel →
      parseArrRest fuel acc (dumpsArrRest xs ++ ']' :: rest) =
        some (.arr (acc ++ xs), rest)) ∧
    (∀ kvs acc rest, validMembers kvs = true →
      (acc.map Prod.fst ++ kvs.map Prod.fst).Nodup → delimOk rest →
      jfuelMembers kvs ≤ fuel →
      parseObjRest fuel acc (dumpsObjRest kvs ++ rbrace :: rest) =
        some (.obj (acc ++ kvs), rest)) ∧
    (∀ k v kvs acc rest, validJson v = true → validMembers kvs = true →
      (acc.map Prod.fst ++ k :: kvs.map Prod.fst).Nodup → delimOk rest →
      1 + jfuel v + jfuelMembers kvs ≤ fuel →
      parseMember fuel acc k
        (':' :: ' ' :: (dumps v ++ (dumpsObjRest kvs ++ rbrace :: rest))) =
        some (.obj (acc ++ (k, v) :: kvs), rest)) := by
  intro fuel
  induction fuel with
  | zero =>
    refine ⟨?_, ?_, ?_, ?_⟩
    · intro m rest _ _ hf
      exact absurd hf (by have := jfuel_pos m; omega)
    · intro xs acc rest _ _ hf
      exact absurd hf (by have := jfuelElems_pos xs; omega)
    · intro kvs acc rest _ _ _ hf
      exact absurd hf (by have := jfuelMembers_pos kvs; omega)
    · intro k v kvs acc rest _ _ _ _ hf
      exact absurd hf (by omega)
  | succ f ih =>
    obtain ⟨ihV, ihA, ihO, ihM⟩ := ih
    refine ⟨?_, ?_, ?_, ?_⟩
    · -- parseVal
      intro m rest hv hd hf
      cases m with
      | null =>
        rw [show dumps .null ++ rest = 'n' :: 'u' :: 'l' :: 'l' :: rest
          from rfl]
        rw [parseVal]
        simp [skipWs, List.isPrefixOf, isJsonWs]
      | bool b =>
        cases b with
        | true =>
          rw [show dumps (.bool true) ++ rest =
            't' :: 'r' :: 'u' :: 'e' :: rest from rfl]
          rw [parseVal]
          simp [skipWs, List.isPrefixOf, isJsonWs]
        | false =>
          rw [show dumps (.bool false) ++ rest =
            'f' :: 'a' :: 'l' :: 's' :: 'e' :: rest from rfl]
          rw [parseVal]
          simp [skipWs, List.isPrefixOf, isJsonWs]
      | int i =>
        by_cases hi : i < 0
        · rw [show dumps (.int i) ++ rest = '-' :: (natStr i.natAbs ++ rest)
            from by simp [dumps, intStr, hi]]
          rw [parseVal]
          rw [skipWs_cons _ (by decide : isJsonWs '-' = false)]
          dsimp only
          rw [if_neg (by decide : ¬ ('-' : Char) = 'n'),
            if_neg (by decide : ¬ ('-' : Char) = 't'),
            if_neg (by decide : ¬ ('-' : Char) = 'f'),
            if_neg (by decide : ¬ ('-' : Char) = '"'),
            if_pos rfl]
          rw [parseDigits_natStr i.natAbs rest
            (delimOk_head_not_digit rest hd)]
          dsimp only
          rw [parseNumTail_delim _ rest hd]
          rw [show -((i.natAbs : Nat) : Int) = i from by omega]
        · by_cases h0 : i.toNat = 0
          · rw [show dumps (.int i) ++ rest = '0' :: rest from by
              simp only [dumps, intStr, if_neg hi, h0]
              rfl]
            rw [parseVal]
            rw [skipWs_cons _ (by decide : isJsonWs '0' = false)]
            dsimp only
            rw [if_neg (by decide : ¬ ('0' : Char) = 'n'),
              if_neg (by decide : ¬ ('0' : Char) = 't'),
              if_neg (by decide : ¬ ('0' : Char) = 'f'),
              if_neg (by decide : ¬ ('0' : Char) = '"'),
              if_neg (by decide : ¬ ('0' : Char) = '-'),
              if_pos (by decide : ('0' : Char).isDigit = true)]
            rw [show parseDigits ('0' :: rest) = some (0, rest) from rfl]
            dsimp only
            rw [parseNumTail_delim _ rest hd]
            rw [show ((0 : Nat) : Int) = i from by omega]
          · obtain ⟨cd, cs, heq, hc0, hcd, hcs⟩ :=
              natStr_head i.toNat (by omega)
            obtain ⟨hlo, hhi⟩ := isDigit_toNat hcd
            rw [show dumps (.int i) ++ rest = cd :: (cs ++ rest) from by
              simp only [dumps, intStr, if_neg hi, heq]
              simp]
            rw [parseVal]
            rw [skipWs_cons _ (by simp [isJsonWs]; omega)]
            dsimp only
            rw [if_neg (toNat_ne_imp_ne
                (by rw [show ('n' : Char).toNat = 110 from rfl]; omega)),
              if_neg (toNat_ne_imp_ne
                (by rw [show ('t' : Char).toNat = 116 from rfl]; omega)),
              if_neg (toNat_ne_imp_ne
                (by rw [show ('f' : Char).toNat = 102 from rfl]; omega)),
              if_neg (toNat_ne_imp_ne
                (by rw [show ('"' : Char).toNat = 34 from rfl]; omega)),
              if_neg (toNat_ne_imp_ne
                (by rw [show ('-' : Char).toNat = 45 from rfl]; omega)),
              if_pos hcd]
            rw [show cd :: (cs ++ rest) = natStr i.toNat ++ rest from by
              rw [heq]
              simp]
            rw [parseDigits_natStr i.toNat rest
              (delimOk_head_not_digit rest hd)]
            dsimp only
            rw [parseNumTail_delim _ rest hd]
            rw [show ((i.toNat : Nat) : Int) = i from by omega]
      | str s =>
        rw [show dumps (.str s) ++ rest = '"' :: (escStr s ++ '"' :: rest)
          from by simp [dumps]]
        rw [parseVal]
        rw [skipWs_cons _ (by decide : isJsonWs '"' = false)]
        dsimp only
        rw [if_neg (by decide : ¬ ('"' : Char) = 'n'),
          if_neg (by decide : ¬ ('"' : Char) = 't'),
          if_neg (by decide : ¬ ('"' : Char) = 'f'),
          if_pos rfl]
        rw [parseStrBody_escStr s ((escStr s ++ '"' :: rest).length + 1) rest
          (by simp only [List.length_append, List.length_cons]; omega)]
        rfl
      | arr xs =>
        cases xs with
        | nil =>
          rw [show dumps (.arr []) ++ rest = '[' :: ']' :: rest from rfl]
          rw [parseVal]
          simp [skipWs, isJsonWs]
        | cons x xs =>
          simp only [validJson, validElems, Bool.and_eq_true] at hv
          have hfx : 2 + jfuel x + jfuelElems xs ≤ f + 1 := by
            simp only [jfuel, jfuelElems] at hf
            omega
          have hpx := jfuel_pos x
          have hpxs := jfuelElems_pos xs
          obtain ⟨c, t, hct, hcw, hcne⟩ := dumps_head x
          rw [show dumps (.arr (x :: xs)) ++ rest =
              '[' :: (dumps x ++ (dumpsArrRest xs ++ ']' :: rest)) from by
            simp [dumps]]
          rw [parseVal]
          rw [skipWs_cons _ (by decide : isJsonWs '[' = false)]
          dsimp only
          rw [if_neg (by decide : ¬ ('[' : Char) = 'n'),
            if_neg (by decide : ¬ ('[' : Char) = 't'),
            if_neg (by decide : ¬ ('[' : Char) = 'f'),
            if_neg (by decide : ¬ ('[' : Char) = '"'),
            if_neg (by decide : ¬ ('[' : Char) = '-'),
            if_neg (by decide : ¬ ('[' : Char).isDigit = true),
            if_pos rfl]
          rw [show dumps x ++ (dumpsArrRest xs ++ ']' :: rest) =
              c :: (t ++ (dumpsArrRest xs ++ ']' :: rest)) from by
            rw [hct]
            simp]
          rw [skipWs_cons _ hcw]
          dsimp only
          rw [if_neg hcne]
          rw [show c :: (t ++ (dumpsArrRest xs ++ ']' :: rest)) =
              dumps x ++ (dumpsArrRest xs ++ ']' :: rest) from by
            rw [hct]
            simp]
          rw [ihV x (dumpsArrRest xs ++ ']' :: rest) hv.1
            (delimOk_dumpsArrRest xs rest) (by omega)]
          dsimp only
          rw [ihA xs [x] rest hv.2 hd (by omega)]
          rfl
      | obj kvs =>
        cases kvs with
        | nil =>
          rw [show dumps (.obj []) ++ rest = lbrace :: rbrace :: rest
            from rfl]
          rw [parseVal]
          rw [skipWs_cons _ (by decide : isJsonWs lbrace = false)]
          dsimp only
          rw [if_neg (by decide : ¬ lbrace = 'n'),
            if_neg (by decide : ¬ lbrace = 't'),
            if_neg (by decide : ¬ lbrace = 'f'),
            if_neg (by decide : ¬ lbrace = '"'),
            if_neg (by decide : ¬ lbrace = '-'),
            if_neg (by decide : ¬ lbrace.isDigit = true),
            if_neg (by decide : ¬ lbrace = '['),
            if_pos rfl]
          rw [skipWs_cons _ (by decide : isJsonWs rbrace = false)]
          dsimp only
          rw [if_pos rfl]
        | cons kv kvs =>
          obtain ⟨k, v⟩ := kv
          simp only [validJson, validMembers, Bool.and_eq_true,
            decide_eq_true_eq, List.map_cons] at hv
          obtain ⟨hnd, hvv, hvm⟩ := hv
          have hfv : 3 + jfuel v + jfuelMembers kvs ≤ f + 1 := by
            simp only [jfuel, jfuelMembers] at hf
            omega
          rw [show dumps (.obj ((k, v) :: kvs)) ++ rest =
              lbrace :: ('"' :: (escStr k ++ '"' ::
                (':' :: ' ' ::
                  (dumps v ++ (dumpsObjRest kvs ++ rbrace :: rest)))))
              from by simp [dumps, dumpsMember]]
          rw [parseVal]
          rw [skipWs_cons _ (by decide : isJsonWs lbrace = false)]
          dsimp only
          rw [if_neg (by decide : ¬ lbrace = 'n'),
            if_neg (by decide : ¬ lbrace = 't'),
            if_neg (by decide : ¬ lbrace = 'f'),
            if_neg (by decide : ¬ lbrace = '"'),
            if_neg (by decide : ¬ lbrace = '-'),
            if_neg (by decide : ¬ lbrace.isDigit = true),
            if_neg (by decide : ¬ lbrace = '['),
            if_pos rfl]
          rw [skipWs_cons _ (by decide : isJsonWs '"' = false)]
          dsimp only
          rw [if_neg (by decide : ¬ ('"' : Char) = rbrace), if_pos rfl]
          rw [parseStrBody_escStr k _ _ (by simp only [List.length_append, List.length_cons]; omega)]
          dsimp only
          rw [ihM k v kvs [] rest hvv hvm
            (by simp only [List.map_nil, List.nil_append]; exact hnd) hd
            (by omega)]
          rfl
    · -- parseArrRest
      intro xs acc rest hv hd hf
      cases xs with
      | nil =>
        rw [show dumpsArrRest [] ++ ']' :: rest = ']' :: rest from rfl]
        rw [parseArrRest]
        rw [skipWs_cons _ (by decide : isJsonWs ']' = false)]
        dsimp only
        rw [if_neg (by decide : ¬ (']' : Char) = ','), if_pos rfl]
        simp
      | cons x xs =>
        simp only [validElems, Bool.and_eq_true] at hv
        simp only [jfuelElems] at hf
        have hpx := jfuel_pos x
        have hpxs := jfuelElems_pos xs
        rw [show dumpsArrRest (x :: xs) ++ ']' :: rest =
            ',' :: ' ' :: (dumps x ++ (dumpsArrRest xs ++ ']' :: rest))
            from by simp [dumpsArrRest]]
        rw [parseArrRest]
        rw [skipWs_cons _ (by decide : isJsonWs ',' = false)]
        dsimp only
        rw [if_pos rfl]
        rw [parseVal_ws]
        rw [ihV x (dumpsArrRest xs ++ ']' :: rest) hv.1
          (delimOk_dumpsArrRest xs rest) (by omega)]
        dsimp only
        rw [ihA xs (acc ++ [x]) rest hv.2 hd (by omega)]
        simp
    · -- parseObjRest
      intro kvs acc rest hv hnd hd hf
      cases kvs with
      | nil =>
        rw [show dumpsObjRest [] ++ rbrace :: rest = rbrace :: rest
          from rfl]
        rw [parseObjRest]
        rw [skipWs_cons _ (by decide : isJsonWs rbrace = false)]
        dsimp only
        rw [if_neg (by decide : ¬ rbrace = ','), if_pos rfl]
        simp
      | cons kv kvs =>
        obtain ⟨k, v⟩ := kv
        simp only [validMembers, Bool.and_eq_true] at hv
        obtain ⟨hvv, hvm⟩ := hv
        simp only [jfuelMembers] at hf
        rw [show dumpsObjRest ((k, v) :: kvs) ++ rbrace :: rest =
            ',' :: ' ' :: ('"' :: (escStr k ++ '"' ::
              (':' :: ' ' ::
                (dumps v ++ (dumpsObjRest kvs ++ rbrace :: rest)))))
            from by simp [dumpsObjRest, dumpsMember]]
        rw [parseObjRest]
        rw [skipWs_cons _ (by decide : isJsonWs ',' = false)]
        dsimp only
        rw [if_pos rfl]
        rw [skipWs_space]
        rw [skipWs_cons _ (by decide : isJsonWs '"' = false)]
        dsimp only
        rw [if_pos rfl]
        rw [parseStrBody_escStr k _ _ (by simp only [List.length_append, List.length_cons]; omega)]
        dsimp only
        rw [ihM k v kvs acc rest hvv hvm (by simpa using hnd) hd (by omega)]
    · -- parseMember
      intro k v kvs acc rest hvv hvm hnd hd hf
      have hpv := jfuel_pos v
      have hpm := jfuelMembers_pos kvs
      rw [parseMember]
      rw [skipWs_cons _ (by decide : isJsonWs ':' = false)]
      dsimp only
      rw [if_pos rfl]
      rw [parseVal_ws]
      rw [ihV v (dumpsObjRest kvs ++ rbrace :: rest) hvv
        (delimOk_dumpsObjRest kvs rest) (by omega)]
      dsimp only
      have hknotin : k ∉ acc.map Prod.fst := by
        have hmid := List.nodup_middle.mp hnd
        rw [List.nodup_cons] at hmid
        intro hk
        exact hmid.1 (List.mem_append_left _ hk)
      rw [objIns_append acc k v hknotin]
      have hnd2 : ((acc ++ [(k, v)]).map Prod.fst ++ kvs.map Prod.fst).Nodup := by
        simpa [List.append_assoc] using hnd
      rw [ihO kvs (acc ++ [(k, v)]) rest hvm hnd2 hd (by omega)]
      simp


mutual

/-- The fuel bound of a value is within the loads fuel budget. -/
theorem jfuel_le_dumps : ∀ m : Json, jfuel m ≤ 2 * (dumps m).length
  | .null => by simp [jfuel, dumps]
  | .bool b => by cases b <;> simp [jfuel, dumps]
  | .int i => by
    have h1 : 1 ≤ (natStr i.natAbs).length := by
      by_cases h : i.natAbs = 0
      · rw [h]
        decide
      · obtain ⟨c, cs, heq, _, _, _⟩ := natStr_head i.natAbs (by omega)
        rw [heq]
        simp
    have h2 : 1 ≤ (natStr i.toNat).length := by
      by_cases h : i.toNat = 0
      · rw [h]
        decide
      · obtain ⟨c, cs, heq, _, _, _⟩ := natStr_head i.toNat (by omega)
        rw [heq]
        simp
    simp only [jfuel, dumps, intStr]
    split_ifs <;> simp <;> omega
  | .str s => by
    simp [jfuel, dumps]
    omega
  | .arr [] => by simp [jfuel, jfuelElems, dumps]
  | .arr (x :: xs) => by
    have h1 := jfuel_le_dumps x
    have h2 := jfuelElems_le_dumps xs
    simp [jfuel, jfuelElems, dumps, List.length_append]
    omega
  | .obj [] => by simp [jfuel, jfuelMembers, dumps]
  | .obj ((k, v) :: kvs) => by
    have h1 := jfuel_le_dumps v
    have h2 := jfuelMembers_le_dumps kvs
    simp [jfuel, jfuelMembers, dumps, dumpsMember, List.length_append]
    omega

/-- The element-loop fuel bound is within the budget of its dump. -/
theorem jfuelElems_le_dumps : ∀ xs : List Json,
    jfuelElems xs ≤ 2 * (dumpsArrRest xs).length + 2
  | [] => by simp [jfuelElems, dumpsArrRest]
  | x :: xs => by
    have h1 := jfuel_le_dumps x
    have h2 := jfuelElems_le_dumps xs
    simp [jfuelElems, dumpsArrRest, List.length_append]
    omega

/-- The member-loop fuel bound is within the budget of its dump. -/
theorem jfuelMembers_le_dumps : ∀ kvs : List (List Char × Json),
    jfuelMembers kvs ≤ 2 * (dumpsObjRest kvs).length + 2
  | [] => by simp [jfuelMembers, dumpsObjRest]
  | (k, v) :: kvs => by
    have h1 := jfuel_le_dumps v
    have h2 := jfuelMembers_le_dumps kvs
    simp [jfuelMembers, dumpsObjRest, dumpsMember, List.length_append]
    omega

end

/-- json.loads undoes json.dumps on every valid value: the whole-string
decode of the serialized form returns the value itself. -/
theorem loads_dumps (m : Json) (h : validJson m = true) :
    loads (dumps m) = some m := by
  have hb := jfuel_le_dumps m
  have h1 := (parse_round (2 * (dumps m).length + 4)).1 m [] h trivial
    (by omega)
  rw [List.append_nil] at h1
  unfold loads
  rw [h1]
  rfl


/-- The decimal rendering is never empty. -/
theorem natStr_ne_nil (n : Nat) : natStr n ≠ [] := by
  by_cases h : n = 0
  · subst h
    decide
  · obtain ⟨c, cs, heq, _, _, _⟩ := natStr_head n (by omega)
    rw [heq]
    simp

/-- Dropping while a predicate fails everywhere drops nothing. -/
theorem dropWhile_all_false (p : Char → Bool) (s : List Char)
    (h : ∀ c ∈ s, p c = false) : s.dropWhile p = s := by
  cases s with
  | nil => rfl
  | cons a l =>
    rw [List.dropWhile_cons, if_neg (by simp [h a (by simp)])]

/-- Dropping while a predicate holds skips a wholly satisfying prefix. -/
theorem dropWhile_append_ws (p : Char → Bool) (a b : List Char)
    (h : ∀ x ∈ a, p x = true) : (a ++ b).dropWhile p = b.dropWhile p := by
  induction a with
  | nil => rfl
  | cons x xs ih =>
    rw [List.cons_append, List.dropWhile_cons, if_pos (by simp [h x (by simp)])]
    exact ih (fun y hy => h y (by simp [hy]))

/-- Python str.strip removes exactly a trailing whitespace run from a
string whose own first and last characters are not whitespace. -/
theorem pyStrip_trim (s ws : List Char) (hne : s ≠ [])
    (hhead : ∀ e, s.head? = some e → isPyWs e = false)
    (hlast : ∀ e, s.reverse.head? = some e → isPyWs e = false)
    (hws : ∀ x ∈ ws, isPyWs x = true) :
    pyStrip (s ++ ws) = s := by
  obtain ⟨c, t, rfl⟩ := List.exists_cons_of_ne_nil hne
  obtain ⟨d, u, hrev⟩ :=
    List.exists_cons_of_ne_nil (by simp : (c :: t).reverse ≠ [])
  unfold pyStrip
  rw [List.cons_append, List.dropWhile_cons,
    if_neg (by simp [hhead c rfl])]
  rw [show c :: (t ++ ws) = (c :: t) ++ ws from rfl]
  rw [List.reverse_append]
  rw [dropWhile_append_ws _ _ _
    (fun x hx => hws x (List.mem_reverse.mp hx))]
  rw [hrev, List.dropWhile_cons,
    if_neg (by simp [hlast d (by rw [hrev]; rfl)])]
  rw [← hrev, List.reverse_reverse]

/-- Python str.strip removes exactly a single leading space from a string
of non-whitespace characters. -/
theorem pyStrip_space (t : List Char) (h : ∀ c ∈ t, isPyWs c = false) :
    pyStrip (' ' :: t) = t := by
  unfold pyStrip
  rw [List.dropWhile_cons, if_pos (by decide)]
  rw [dropWhile_all_false _ _ h,
    dropWhile_all_false _ _ (fun c hc => h c (List.mem_reverse.mp hc)),
    List.reverse_reverse]

/-- Splitting on CR LF leaves a carriage-return-free string whole. -/
theorem splitCRLFCore_no_cr : ∀ fuel s, (∀ c ∈ s, c ≠ '\r') →
    splitCRLFCore fuel s = [s] := by
  intro fuel
  induction fuel with
  | zero =>
    intro s _
    cases s <;> rfl
  | succ f ih =>
    intro s hs
    cases s with
    | nil => rfl
    | cons c rest =>
      cases rest with
      | nil => rfl
      | cons c2 rest2 =>
        rw [splitCRLFCore]
        rw [if_neg (by
          rintro ⟨hc, -⟩
          exact hs c (by simp) hc)]
        rw [ih (c2 :: rest2) (fun x hx => hs x (by simp [hx]))]

/-- Splitting the header block on CR LF, when it contains no carriage
return, yields the single line itself. -/
theorem splitCRLF_no_cr (s : List Char) (h : ∀ c ∈ s, c ≠ '\r') :
    splitCRLF s = [s] :=
  splitCRLFCore_no_cr s.length s h

/-- A colon-free string splits into itself alone. -/
theorem splitColon_no_colon : ∀ s : List Char, (∀ c ∈ s, c ≠ ':') →
    splitColon s = [s] := by
  intro s
  induction s with
  | nil =>
    intro _
    rfl
  | cons c rest ih =>
    intro hs
    rw [splitColon]
    rw [if_neg (hs c (by simp))]
    rw [ih (fun x hx => hs x (by simp [hx]))]

/-- A string with exactly one colon splits into the two colon-free
pieces around it. -/
theorem splitColon_once (a b : List Char) (ha : ∀ c ∈ a, c ≠ ':')
    (hb : ∀ c ∈ b, c ≠ ':') :
    splitColon (a ++ ':' :: b) = [a, b] := by
  induction a with
  | nil =>
    rw [List.nil_append, splitColon, if_pos rfl, splitColon_no_colon b hb]
  | cons c rest ih =>
    rw [List.cons_append, splitColon]
    rw [if_neg (ha c (by simp))]
    rw [ih (fun x hx => ha x (by simp [hx]))]

/-- Python int() reads back the decimal rendering of a natural number. -/
theorem pyInt_natStr (L : Nat) : pyInt (natStr L) = some (L : Int) := by
  by_cases h0 : L = 0
  · subst h0
    rfl
  · obtain ⟨c, cs, heq, hc0, hcd, hcs⟩ := natStr_head L (by omega)
    obtain ⟨hlo, hhi⟩ := isDigit_toNat hcd
    rw [heq, pyInt]
    rw [if_neg (toNat_ne_imp_ne
      (by rw [show ('-' : Char).toNat = 45 from rfl]; omega))]
    rw [if_neg (toNat_ne_imp_ne
      (by rw [show ('+' : Char).toNat = 43 from rfl]; omega))]
    rw [if_pos (by
      rw [List.all_eq_true]
      intro x hx
      rcases List.mem_cons.mp hx with rfl | hx2
      · exact hcd
      · exact hcs x hx2)]
    rw [← heq, digitsVal_natStr]


/-- A decimal rendering avoids any character outside the digit range. -/
theorem natStr_avoid (L : Nat) (d : Char)
    (hd : d.toNat < 48 ∨ 57 < d.toNat) : ∀ c ∈ natStr L, c ≠ d := by
  intro c hc
  obtain ⟨hlo, hhi⟩ := isDigit_toNat (natStr_all_digits L c hc)
  exact toNat_ne_imp_ne (by omega)

/-- No character of a decimal rendering is Python whitespace. -/
theorem natStr_not_ws (L : Nat) : ∀ c ∈ natStr L, isPyWs c = false := by
  intro c hc
  obtain ⟨hlo, hhi⟩ := isDigit_toNat (natStr_all_digits L c hc)
  simp [isPyWs]
  omega

/-- The header line written by send_message passes the case-insensitive
content-length match of read_message. -/
theorem clMatches_header (L : Nat) :
    clMatches (clHeaderPrefix ++ natStr L) = true := by
  unfold clMatches lowerStr
  rw [List.map_append]
  rw [show List.map charLower clHeaderPrefix = clPat ++ [' '] from rfl]
  rw [List.isPrefixOf_iff_prefix, List.append_assoc]
  exact List.prefix_append _ _

/-- The extraction reads back the body length from the header line
written by send_message. -/
theorem clValue_header (L : Nat) :
    clValue (clHeaderPrefix ++ natStr L) = some (L : Int) := by
  unfold clValue
  rw [show clHeaderPrefix ++ natStr L =
      ['C', 'o', 'n', 't', 'e', 'n', 't', '-', 'L', 'e', 'n', 'g', 't', 'h']
        ++ ':' :: (' ' :: natStr L) from by simp [clHeaderPrefix]]
  rw [splitColon_once _ _ (by decide) (by
    intro x hx
    rcases List.mem_cons.mp hx with rfl | hx2
    · decide
    · exact natStr_avoid L ':' (by decide) x hx2)]
  rw [show ([['C', 'o', 'n', 't', 'e', 'n', 't', '-', 'L', 'e', 'n', 'g',
      't', 'h'], ' ' :: natStr L] : List (List Char)).get? 1 =
      some (' ' :: natStr L) from rfl]
  dsimp only
  rw [pyStrip_space (natStr L) (natStr_not_ws L)]
  exact pyInt_natStr L

/-- Folding the extraction over the single header line of an encoded
message yields its declared body length. -/
theorem contentLengthOf_header (L : Nat) :
    contentLengthOf [clHeaderPrefix ++ natStr L] = .ok (L : Int) := by
  unfold contentLengthOf
  rw [List.foldl_cons, List.foldl_nil]
  unfold contentLengthStep
  dsimp only
  rw [if_pos (clMatches_header L)]
  rw [clValue_header L]


/-- Claim C1: encode/decode round trip.  For every valid message m, the
bytes send_message writes — the Content-Length header carrying the body
length, the blank line, then the json.dumps body — delivered promptly on a
stream that then closes, make read_message return exactly the message m. -/
theorem c1_roundtrip (m : Json) (hm : validJson m = true) (t : Nat)
    (ht : 1 ≤ t) :
    readMessage (promptStream (sendBytes m)) t = .ret (some m) := by
  have hL1 : 1 ≤ (dumps m).length := by
    obtain ⟨c0, t0, hct0, _, _⟩ := dumps_head m
    rw [hct0]
    simp
  have hb : ∀ c ∈ clHeaderPrefix ++ natStr (dumps m).length, c ≠ lfChar := by
    intro c hc
    rcases List.mem_append.mp hc with h | h
    · exact (by decide : ∀ c ∈ clHeaderPrefix, c ≠ lfChar) c h
    · exact natStr_avoid _ lfChar (Or.inl (by decide)) c h
  unfold readMessage readMessageCore
  rw [show promptStream (sendBytes m) =
      ⟨((clHeaderPrefix ++ natStr (dumps m).length) ++
          [crChar, lfChar, crChar, lfChar]).map (fun c => (0, c)) ++
        (dumps m).map (fun c => (0, c)), some 0⟩ from by
    simp [promptStream, sendBytes]]
  rw [rmHeader_prompt (clHeaderPrefix ++ natStr (dumps m).length) hb
    ((dumps m).map (fun c => (0, c))) (some 0) t ht]
  dsimp only
  rw [pyStrip_trim (clHeaderPrefix ++ natStr (dumps m).length)
    [crChar, lfChar, crChar, lfChar]
    (by simp [clHeaderPrefix])
    (by
      intro e he
      rw [show clHeaderPrefix ++ natStr (dumps m).length =
          'C' :: (['o', 'n', 't', 'e', 'n', 't', '-', 'L', 'e', 'n', 'g',
            't', 'h', ':', ' '] ++ natStr (dumps m).length) from rfl] at he
      simp only [List.head?_cons, Option.some.injEq] at he
      subst he
      decide)
    (by
      intro e he
      obtain ⟨d, u, hdu⟩ := List.exists_cons_of_ne_nil
        (by simp [natStr_ne_nil] :
          (natStr (dumps m).length).reverse ≠ [])
      rw [List.reverse_append, hdu, List.cons_append] at he
      simp only [List.head?_cons, Option.some.injEq] at he
      subst he
      exact natStr_not_ws (dumps m).length d (by
        rw [← List.mem_reverse, hdu]
        simp))
    (by decide)]
  rw [splitCRLF_no_cr (clHeaderPrefix ++ natStr (dumps m).length) (by
    intro c hc
    rcases List.mem_append.mp hc with h | h
    · exact (by decide : ∀ c ∈ clHeaderPrefix, c ≠ '\r') c h
    · exact natStr_avoid _ '\r' (Or.inl (by decide)) c h)]
  rw [contentLengthOf_header (dumps m).length]
  dsimp only
  rw [if_neg (by
    intro h
    omega)]
  rw [show readBody (((dumps m).length : Nat) : Int)
      ⟨(dumps m).map (fun c => (0, c)), some 0⟩ = .got (dumps m) from by
    unfold readBody
    rw [if_neg (by omega)]
    rw [if_neg (by simp)]
    simp [List.map_map, Function.comp]]
  dsimp only
  rw [loads_dumps m hm]


/-- Witness for C1: a concrete two-member request message satisfies the
hypotheses and round-trips through the encoded byte stream. -/
theorem c1_witness :
    validJson (Json.obj [(['i', 'd'], Json.int 1),
      (['m', 'e', 't', 'h', 'o', 'd'],
        Json.str ['p', 'i', 'n', 'g'])]) = true ∧
    1 ≤ 5 ∧
    readMessage (promptStream (sendBytes (Json.obj [(['i', 'd'], Json.int 1),
      (['m', 'e', 't', 'h', 'o', 'd'],
        Json.str ['p', 'i', 'n', 'g'])]))) 5 =
      .ret (some (Json.obj [(['i', 'd'], Json.int 1),
        (['m', 'e', 't', 'h', 'o', 'd'],
          Json.str ['p', 'i', 'n', 'g'])])) :=
  ⟨by decide, by decide,
    c1_roundtrip (Json.obj [(['i', 'd'], Json.int 1),
      (['m', 'e', 't', 'h', 'o', 'd'],
        Json.str ['p', 'i', 'n', 'g'])]) (by decide) 5 (by decide)⟩


end Raven
